import Mathlib

/-!
Verification of the gd turn-resolution engine (gd/mechanics.py, gd/world.py).

Two embeddings are developed:

* `GD` — the mechanics level. Territories are modelled by their owner, their
  number of Troops and a constructs flag (the battle code only ever creates,
  removes and moves Troops, so individual unit identity is irrelevant there);
  instructions of one InstructionSet are a list, and instructions reference
  each other by index into that list. Exceptions are modelled by threading a
  `State × Option Err` result: Python exceptions do not roll back earlier
  mutations, so the state at raise time is kept alongside the error.
  Recursion between `execute` and the resolve functions is fuel-indexed.

* `GD.WorldModel` — the unit level (gd/world.py). Units are records with an
  id, a variant and a territory back-reference, territories carry ordered
  unit-id lists, and the primitive mutators `take_unit`, `remove_unit`,
  `Unit.move` and `Unit.remove` are translated statement by statement.
-/

set_option maxHeartbeats 1000000

namespace GD

/-- Instruction classification, mirroring the `InstructionType` enum of
gd/mechanics.py (CREATE_HEADQUARTER concerns only non-Movement instructions
and is not needed for Movements). -/
inductive InstructionType where
  | EXPANSION
  | DISTRIBUTION
  | INVASION
  | SKIRMISH
deriving DecidableEq

/-- Exceptions raised by the mechanics code, plus two artifacts of the
embedding: `minOfEmpty` stands for the ValueError Python's `min` would raise
on an empty list, and `outOfFuel` marks exhausted recursion fuel. -/
inductive Err where
  | issuerDoesNotOwnTerritory
  | insufficientUnits
  | targetNotAdjacent
  | instructionAlreadyExecuting
  | instructionAlreadyExecuted
  | unwindingLoopedInstructions
  | noSkirmishingInstructions
  | invalidInstructionType
  | instructionSetNotConstructible
  | valueError
  | minOfEmpty
  | outOfFuel
deriving DecidableEq

/-- Territory state at the mechanics level: owner (a player id, or none for
neutral), number of Troops present, and whether any constructs are present.
`Territory.is_empty` in the source asks for no units and no constructs; in
the battle code paths the only units are Troops. -/
structure Territory where
  owner : Option Nat
  troops : Nat
  hasConstructs : Bool
deriving DecidableEq

instance : Inhabited Territory := ⟨⟨none, 0, false⟩⟩

/-- A Movement instruction (class `Movement` of gd/mechanics.py). Issuer is a
player id; origin and destination are territory ids (in the source a
Territory's hash is its id, and territory ids are used for the cycle
tie-break). `num_troops` and `num_troops_moved` are `Int` exactly because the
source computes `self._num_troops - self._num_troops_moved`, which can go
negative. Peer links (`skirmishing_movements`, `mutual_invasion`) are indices
into the ambient InstructionSet's instruction list. -/
structure Movement where
  issuer : Nat
  origin : Nat
  destination : Nat
  num_troops : Int := 0
  num_troops_moved : Int := 0
  instruction_type : Option InstructionType := none
  skirmishing_movements : List Nat := []
  mutual_invasion : Option Nat := none
  allow_insufficient : Bool := false
  is_executing : Bool := false
  is_executed : Bool := false
  is_part_of_loop : Bool := false
deriving DecidableEq

instance : Inhabited Movement := ⟨{ issuer := 0, origin := 0, destination := 0 }⟩

/-- Read the k-th instruction of the set (with a default out of range; the
instruction list's length never changes during execution). -/
def getIdx : List Movement → Nat → Movement
  | [], _ => default
  | i :: _, 0 => i
  | _ :: is, n + 1 => getIdx is n

/-- Write the k-th instruction back (a no-op out of range), modelling Python's
in-place mutation of the instruction object. -/
def setIdx : List Movement → Nat → Movement → List Movement
  | [], _, _ => []
  | _ :: is, 0, v => v :: is
  | i :: is, n + 1, v => i :: setIdx is n v

/-- State of one InstructionSet execution: the world (territory id to
territory) and the set's instructions. -/
structure State where
  world : Nat → Territory
  instrs : List Movement

def troopsAt (w : Nat → Territory) (t : Nat) : Nat := (w t).troops

def setTroops (w : Nat → Territory) (t : Nat) (n : Nat) : Nat → Territory :=
  fun x => if x = t then { w t with troops := n } else w x

def setOwner (w : Nat → Territory) (t : Nat) (o : Option Nat) : Nat → Territory :=
  fun x => if x = t then { w t with owner := o } else w x

/-- Territory.is_empty: devoid of units and constructs. -/
def isEmpty (w : Nat → Territory) (t : Nat) : Bool :=
  troopsAt w t == 0 && !(w t).hasConstructs

/-- `Territory.remove_unit(Troop)` and `Territory.remove_unit(Troop, 1, allow)`
at the mechanics level (gd/world.py:111-121 with amount 1, the only amount the
battle code uses): removes one Troop; when none are available it raises
InsufficientUnitsException unless shortfall is allowed, in which case the
amount is clamped to zero and nothing is removed. -/
def remove_one_troop (w : Nat → Territory) (t : Nat) (allow : Bool) :
    (Nat → Territory) × Option Err :=
  if troopsAt w t = 0 then
    if allow then (w, none) else (w, some .insufficientUnits)
  else (setTroops w t (troopsAt w t - 1), none)

/-- `Territory.take_unit(Troop, amount, allow)` at the mechanics level
(gd/world.py:86-109). take_unit never mutates; its result is reduced to the
number of Troops selected, with 0 standing for both falsy Python results
(the empty list for amount 0, and None when shortfall is allowed but nothing
is available). A negative amount raises ValueError before anything else. -/
def take_unit_count (w : Nat → Territory) (t : Nat) (amount : Int) (allow : Bool) :
    Nat × Option Err :=
  if amount < 0 then (0, some .valueError)
  else if amount = 0 then (0, none)
  else if (troopsAt w t : Int) < amount then
    if !allow then (0, some .insufficientUnits)
    else (troopsAt w t, none)
  else (amount.toNat, none)

def modInstr (st : State) (k : Nat) (f : Movement → Movement) : State :=
  { st with instrs := setIdx st.instrs k (f (getIdx st.instrs k)) }

def setWorld (st : State) (w : Nat → Territory) : State := { st with world := w }

/-- Indices of the set's instructions satisfying a predicate, in list order
(the Python code iterates the instruction list and compares objects; indices
play the role of object identity here). -/
def idxFilter (instrs : List Movement) (p : Movement → Bool) : List Nat :=
  (List.range instrs.length).filter fun j => p (getIdx instrs j)

/-- `Movement.assert_is_valid` (gd/mechanics.py:350-370). Checks in order:
the issuer owns the origin; the requested troops do not exceed the troops in
the origin unless partial execution is allowed; the destination is adjacent
to the origin. Pure — it only reads the world. -/
def assert_is_valid (adj : Nat → Nat → Bool) (st : State) (k : Nat) : Option Err :=
  if (st.world (getIdx st.instrs k).origin).owner ≠ some (getIdx st.instrs k).issuer then
    some .issuerDoesNotOwnTerritory
  else if (troopsAt st.world (getIdx st.instrs k).origin : Int) < (getIdx st.instrs k).num_troops
      && !(getIdx st.instrs k).allow_insufficient then
    some .insufficientUnits
  else if !adj (getIdx st.instrs k).origin (getIdx st.instrs k).destination then
    some .targetNotAdjacent
  else none

/-- One iteration of the invasion penalty loop (gd/mechanics.py:428-434):
remove a Troop from the origin (never with shortfall allowed — the source
calls remove_unit(Troop) with default arguments); on a mutual invasion also
remove one from the destination; then count one moved troop. A raise keeps
the mutations already made. -/
def penaltyStep (st : State) (k : Nat) (isMut : Bool) : State × Option Err :=
  let i := getIdx st.instrs k
  match remove_one_troop st.world i.origin false with
  | (w, some e) => (setWorld st w, some e)
  | (w, none) =>
    if isMut then
      match remove_one_troop w i.destination false with
      | (w2, some e) => (setWorld st w2, some e)
      | (w2, none) =>
          (modInstr (setWorld st w2) k fun x =>
            { x with num_troops_moved := x.num_troops_moved + 1 }, none)
    else
      (modInstr (setWorld st w) k fun x =>
        { x with num_troops_moved := x.num_troops_moved + 1 }, none)

/-- The `for _ in range(NUM_INVASION_PENALTY)` loop with its try/except
(gd/mechanics.py:424-438, NUM_INVASION_PENALTY = 2): an
InsufficientUnitsException is swallowed when partial execution is allowed and
re-raised otherwise; either way the mutations made so far stay. -/
def penalty (st : State) (k : Nat) (isMut allow : Bool) : State × Option Err :=
  match penaltyStep st k isMut with
  | (st1, some e) => (st1, if allow then none else some e)
  | (st1, none) =>
    match penaltyStep st1 k isMut with
    | (st2, some e) => (st2, if allow then none else some e)
    | (st2, none) => (st2, none)

/-- Gas-indexed form of the 1-for-1 trade loop of resolve_invasion: the loop
runs at most (num - moved).toNat times since each iteration increments moved
by one, so with that much gas the gas never runs out before the loop's own
exit conditions. Structural recursion keeps the function kernel-reducible. -/
def tradeLoopAux (o d : Nat) (num : Int) :
    Nat → (Nat → Territory) → Int → (Nat → Territory) × Int
  | 0, w, moved => (w, moved)
  | gas + 1, w, moved =>
    if moved < num then
      if 0 < troopsAt w o ∧ 0 < troopsAt w d then
        let w1 := setTroops w o (troopsAt w o - 1)
        let w2 := setTroops w1 d (troopsAt w1 d - 1)
        tradeLoopAux o d num gas w2 (moved + 1)
      else (w, moved)
    else (w, moved)

/-- The 1-for-1 trade loop of resolve_invasion (gd/mechanics.py:443-456):
while fewer than the requested troops have been moved and both origin and
destination still hold Troops, remove one from each side (remove_unit always
succeeds here, the guard just ensured a Troop on each side) and count one
moved troop; otherwise break. Returns the world and the final moved count. -/
def tradeLoop (w : Nat → Territory) (o d : Nat) (num moved : Int) :
    (Nat → Territory) × Int :=
  tradeLoopAux o d num (num - moved).toNat w moved

/-- Gas-indexed form of the troop-moving loop of resolve_expansion; the same
gas accounting as `tradeLoopAux` applies. -/
def expandLoopAux (o d : Nat) (num : Int) (allow : Bool) :
    Nat → (Nat → Territory) → Int → (Nat → Territory) × Int × Option Err
  | 0, w, moved => (w, moved, none)
  | gas + 1, w, moved =>
    if moved < num then
      match take_unit_count w o 1 allow with
      | (_, some e) => (w, moved, some e)
      | (cnt, none) =>
        if cnt = 0 then (w, moved, none)
        else
          let w1 := setTroops w o (troopsAt w o - 1)
          let w2 := setTroops w1 d (troopsAt w1 d + 1)
          expandLoopAux o d num allow gas w2 (moved + 1)
    else (w, moved, none)

/-- The troop-moving loop of resolve_expansion (gd/mechanics.py:552-564):
take one Troop at a time from the origin (take_unit(Troop, 1, allow)) and
move it to the destination, until the requested number is moved; with
shortfall allowed an exhausted origin breaks the loop (take_unit returned
None), without it take_unit raises. Returns world, final moved count, and a
possible error (mutations made before a raise stay, as in the source). -/
def expandLoop (w : Nat → Territory) (o d : Nat) (num moved : Int) (allow : Bool) :
    (Nat → Territory) × Int × Option Err :=
  expandLoopAux o d num allow (num - moved).toNat w moved

/-- One `origin.take_unit(Troop).remove()` of resolve_skirmish plus the moved
counter bump for instruction j: take_unit with amount 1 and no shortfall
raises when the origin holds no Troops, else the taken Troop is removed. -/
def skirmishTake (st : State) (j : Nat) : State × Option Err :=
  let i := getIdx st.instrs j
  match take_unit_count st.world i.origin 1 false with
  | (_, some e) => (st, some e)
  | (_, none) =>
    let w := setTroops st.world i.origin (troopsAt st.world i.origin - 1)
    (modInstr (setWorld st w) j fun x =>
      { x with num_troops_moved := x.num_troops_moved + 1 }, none)

/-- The inner `for skirmish in skirmishes` of one skirmish round. -/
def skirmishPeersRound (st : State) (peers : List Nat) : State × Option Err :=
  match peers with
  | [] => (st, none)
  | j :: rest =>
    match skirmishTake st j with
    | (st1, some e) => (st1, some e)
    | (st1, none) => skirmishPeersRound st1 rest

/-- The `for i in range(min_troops_to_move_among_skirmishes)` loop of
resolve_skirmish (gd/mechanics.py:500-508): each round subtracts one Troop
from self's origin and then from each peer's origin, in order. -/
def skirmishRounds (k : Nat) (peers : List Nat) : Nat → State → State × Option Err
  | 0, st => (st, none)
  | n + 1, st =>
    match skirmishTake st k with
    | (st1, some e) => (st1, some e)
    | (st1, none) =>
      match skirmishPeersRound st1 peers with
      | (st2, some e) => (st2, some e)
      | (st2, none) => skirmishRounds k peers n st2

/-- Mark every peer whose full requested count has been moved as executed
(gd/mechanics.py:510-513). -/
def markFinished (st : State) (peers : List Nat) : State :=
  peers.foldl (fun s j =>
    if (getIdx s.instrs j).num_troops_moved = (getIdx s.instrs j).num_troops then
      modInstr s j fun x => { x with is_executed := true }
    else s) st

/-- Set is_executing back to False for each listed instruction
(gd/mechanics.py:414-419, computed list then the flag resets). -/
def resetExecuting (st : State) (js : List Nat) : State :=
  js.foldl (fun s j => modInstr s j fun x => { x with is_executing := false }) st

/-- `min([instruction.origin.id for instruction in set if instruction.is_executing])`
from the cycle tie-break (gd/mechanics.py:394-395). -/
def minExecutingOrigin (instrs : List Movement) : Option Nat :=
  ((idxFilter instrs fun i => i.is_executing).map fun j => (getIdx instrs j).origin).min?

/-- The mutually recursive entry points of the battle resolver. -/
inductive Call where
  | execute (k : Nat)
  | execList (setAllow : Bool) (js : List Nat)
  | resolveInvasion (k : Nat)
  | resolveExpansion (k : Nat)
  | resolveSkirmish (k : Nat) (peers : List Nat)

/-- Body of `Movement.resolve_expansion` (gd/mechanics.py:538-566): if the
destination meanwhile belongs to another player, redirect to
resolve_invasion; otherwise set the destination's owner to the issuer and
move troops one at a time. -/
def expansionBody (recur : Call → State → State × Option Err) (k : Nat) (st : State) :
    State × Option Err :=
  let i := getIdx st.instrs k
  let dOwn := (st.world i.destination).owner
  if dOwn ≠ none ∧ dOwn ≠ some i.issuer then recur (.resolveInvasion k) st
  else
    let st1 := setWorld st (setOwner st.world i.destination (some i.issuer))
    match expandLoop st1.world i.origin i.destination i.num_troops i.num_troops_moved
        i.allow_insufficient with
    | (w, m, e) => (modInstr (setWorld st1 w) k fun x => { x with num_troops_moved := m }, e)

/-- The higher-priority phase of `Movement.resolve_invasion`
(gd/mechanics.py:378-419): execute the not-yet-executed instructions whose
origin is this instruction's destination; a cycle surfaces as
InstructionAlreadyExecuting or UnwindingLoopedInstructions and is broken at
the instruction whose origin id is minimal among the currently executing
ones, the others' executing flags being reset (the reset also runs when the
recursion succeeded without an exception). -/
def invadeHp (recur : Call → State → State × Option Err) (k : Nat) (st : State) :
    State × Option Err :=
  let hp := idxFilter st.instrs fun j =>
    j.origin == (getIdx st.instrs k).destination && !j.is_executed
  if hp.isEmpty then (st, none)
  else
    match recur (.execList false hp) st with
    | (st1, none) =>
      (resetExecuting st1 ((idxFilter st1.instrs fun j => j.is_executing).filter
        fun j => j != k), none)
    | (st1, some e) =>
      if e = .instructionAlreadyExecuting ∨ e = .unwindingLoopedInstructions then
        match minExecutingOrigin st1.instrs with
        | none => (st1, some .minOfEmpty)
        | some m0 =>
          let st2 := modInstr st1 k fun x => { x with is_part_of_loop := true }
          if (getIdx st2.instrs k).origin = m0 then
            (resetExecuting st2 ((idxFilter st2.instrs fun j => j.is_executing).filter
              fun j => j != k), none)
          else (st2, some .unwindingLoopedInstructions)
      else (st1, some e)

/-- The penalty phase of `Movement.resolve_invasion` (gd/mechanics.py:421-441):
is_mutual = the mutual peer exists and is not yet executed; the penalty is
skipped exactly when the peer exists and already executed (it was then
already applied from the other side). -/
def invadePenalty (st : State) (k : Nat) : State × Option Err :=
  match (getIdx st.instrs k).mutual_invasion with
  | none => penalty st k false (getIdx st.instrs k).allow_insufficient
  | some j =>
    if (getIdx st.instrs j).is_executed then (st, none)
    else penalty st k true (getIdx st.instrs k).allow_insufficient

/-- The tail of `Movement.resolve_invasion` (gd/mechanics.py:458-475): take
the not-yet-moved remainder from the origin; if there is one, the destination
changes owner to the origin's owner and the remainder moves in; otherwise an
emptied destination turns neutral. -/
def invadeFinish (k : Nat) (st : State) : State × Option Err :=
  match take_unit_count st.world (getIdx st.instrs k).origin
      ((getIdx st.instrs k).num_troops - (getIdx st.instrs k).num_troops_moved)
      (getIdx st.instrs k).allow_insufficient with
  | (_, some e) => (st, some e)
  | (cnt, none) =>
    if 0 < cnt then
      let w2 := setOwner st.world (getIdx st.instrs k).destination
        (st.world (getIdx st.instrs k).origin).owner
      let w3 := setTroops w2 (getIdx st.instrs k).origin
        (troopsAt w2 (getIdx st.instrs k).origin - cnt)
      let w4 := setTroops w3 (getIdx st.instrs k).destination
        (troopsAt w3 (getIdx st.instrs k).destination + cnt)
      (modInstr (setWorld st w4) k fun x =>
        { x with num_troops_moved := x.num_troops_moved + cnt }, none)
    else if isEmpty st.world (getIdx st.instrs k).destination then
      (setWorld st (setOwner st.world (getIdx st.instrs k).destination none), none)
    else (st, none)

/-- The non-recursive remainder of `Movement.resolve_invasion`
(gd/mechanics.py:421-475): penalty, then the 1-for-1 trade loop with the
moved-count write-back, then the finishing phase. -/
def invadeMain (k : Nat) (st : State) : State × Option Err :=
  match invadePenalty st k with
  | (stB, some e) => (stB, some e)
  | (stB, none) =>
    match tradeLoop stB.world (getIdx stB.instrs k).origin (getIdx stB.instrs k).destination
        (getIdx stB.instrs k).num_troops (getIdx stB.instrs k).num_troops_moved with
    | (w1, m1) =>
      invadeFinish k (modInstr (setWorld stB w1) k fun x => { x with num_troops_moved := m1 })

/-- Body of `Movement.resolve_invasion` (gd/mechanics.py:372-475): the
higher-priority phase followed, when it did not re-raise, by the penalty,
trade and remainder phase. -/
def invasionBody (recur : Call → State → State × Option Err) (k : Nat) (st : State) :
    State × Option Err :=
  match invadeHp recur k st with
  | (stA, some e) => (stA, some e)
  | (stA, none) => invadeMain k stA

/-- The tail of `Movement.resolve_skirmish` (gd/mechanics.py:527-536): once
no unresolved peers remain, take the not-yet-moved remainder; with troops
left, continue as expansion into a now-neutral destination or as invasion. -/
def skirmishAfter (recur : Call → State → State × Option Err) (k : Nat) (st : State) :
    State × Option Err :=
  match take_unit_count st.world (getIdx st.instrs k).origin
      ((getIdx st.instrs k).num_troops - (getIdx st.instrs k).num_troops_moved) false with
  | (_, some e) => (st, some e)
  | (cnt, none) =>
    if 0 < cnt then
      if (st.world (getIdx st.instrs k).destination).owner = none then
        recur (.resolveExpansion k) st
      else recur (.resolveInvasion k) st
    else (st, none)

/-- Body of `Movement.resolve_skirmish` (gd/mechanics.py:477-536): the
minimum troops-still-to-move across self and the peers are traded away round
by round; peers whose full count is moved become Executed; if self is done it
stops here, otherwise the not-yet-executed peers are resolved recursively and
then the tail runs. -/
def skirmishBody (recur : Call → State → State × Option Err) (k : Nat) (peers : List Nat)
    (st : State) : State × Option Err :=
  let mins := ((peers.map fun j =>
    (getIdx st.instrs j).num_troops - (getIdx st.instrs j).num_troops_moved) ++
    [(getIdx st.instrs k).num_troops - (getIdx st.instrs k).num_troops_moved]).min?.getD 0
  match skirmishRounds k peers mins.toNat st with
  | (st1, some e) => (st1, some e)
  | (st1, none) =>
    let st2 := markFinished st1 peers
    if (getIdx st2.instrs k).num_troops_moved = (getIdx st2.instrs k).num_troops then (st2, none)
    else
      let remaining := peers.filter fun j => !(getIdx st2.instrs j).is_executed
      if remaining.isEmpty then skirmishAfter recur k st2
      else
        match recur (.resolveSkirmish k remaining) st2 with
        | (st3, some e) => (st3, some e)
        | (st3, none) => skirmishAfter recur k st3

/-- The dispatch of `Movement.execute` on the instruction's classification
(gd/mechanics.py:590-613): Expansion and Distribution resolve as expansion;
a Skirmish with no linked peers raises; Invasion resolves as invasion; a
missing classification raises InvalidInstructionType. -/
def dispatchBody (recur : Call → State → State × Option Err) (k : Nat) (st : State) :
    State × Option Err :=
  match (getIdx st.instrs k).instruction_type with
  | some .EXPANSION => recur (.resolveExpansion k) st
  | some .DISTRIBUTION => recur (.resolveExpansion k) st
  | some .SKIRMISH =>
    if (getIdx st.instrs k).skirmishing_movements.isEmpty then
      (st, some .noSkirmishingInstructions)
    else recur (.resolveSkirmish k (getIdx st.instrs k).skirmishing_movements) st
  | some .INVASION => recur (.resolveInvasion k) st
  | none => (st, some .invalidInstructionType)

/-- The tail of `Movement.execute` (gd/mechanics.py:615-634): mark Executed,
clear Executing, and — when this instruction was flagged part of a broken
cycle — mark partial execution allowed on, and execute, every not-yet-executed
instruction whose origin is this instruction's destination. -/
def executeTail (recur : Call → State → State × Option Err) (k : Nat) (st2 : State) :
    State × Option Err :=
  let st3 := modInstr st2 k fun x => { x with is_executed := true, is_executing := false }
  if (getIdx st3.instrs k).is_part_of_loop then
    recur (.execList true (idxFilter st3.instrs fun j =>
      j.origin == (getIdx st3.instrs k).destination && !j.is_executed)) st3
  else (st3, none)

/-- Body of `Movement.execute` (gd/mechanics.py:568-634): the two execution
state guards, the executing mark, validation, dispatch on the classification,
then the tail. Every instruction here belongs to the ambient set, so the
InstructionNotInInstructionSet branch cannot fire and is not modelled. -/
def executeBody (adj : Nat → Nat → Bool) (recur : Call → State → State × Option Err)
    (k : Nat) (st : State) : State × Option Err :=
  if (getIdx st.instrs k).is_executing then (st, some .instructionAlreadyExecuting)
  else if (getIdx st.instrs k).is_executed then (st, some .instructionAlreadyExecuted)
  else
    match assert_is_valid adj (modInstr st k fun x => { x with is_executing := true }) k with
    | some e => (modInstr st k fun x => { x with is_executing := true }, some e)
    | none =>
      match dispatchBody recur k (modInstr st k fun x => { x with is_executing := true }) with
      | (st2, some e) => (st2, some e)
      | (st2, none) => executeTail recur k st2

/-- Sequential execution of a pre-computed list of instruction indices: the
higher-priority loop of resolve_invasion (setAllow = false) and the follow-up
loop after a broken cycle (setAllow = true, where each instruction is first
marked allow_insufficient_troops). Errors propagate together with the state
they were raised in. -/
def execListBody (recur : Call → State → State × Option Err) (setAllow : Bool)
    (js : List Nat) (st : State) : State × Option Err :=
  match js with
  | [] => (st, none)
  | j :: rest =>
    let stJ := if setAllow then modInstr st j (fun x => { x with allow_insufficient := true })
      else st
    match recur (.execute j) stJ with
    | (st1, some e) => (st1, some e)
    | (st1, none) => recur (.execList setAllow rest) st1

/-- The fuel-indexed interpreter tying the bodies together. Fuel only bounds
the recursion depth of the source's mutual recursion. -/
def run (adj : Nat → Nat → Bool) : Nat → Call → State → State × Option Err
  | 0, _, st => (st, some .outOfFuel)
  | n + 1, c, st =>
    match c with
    | .execute k => executeBody adj (run adj n) k st
    | .execList a js => execListBody (run adj n) a js st
    | .resolveInvasion k => invasionBody (run adj n) k st
    | .resolveExpansion k => expansionBody (run adj n) k st
    | .resolveSkirmish k peers => skirmishBody (run adj n) k peers st

/-! ## The instruction classifier (InstructionSet.set_movement_type) -/

/-- The retag applied to each movement sharing the destination when the
skirmish branch of set_movement_type fires: type Skirmish, linked to all
other movements to that destination. -/
def skirmRetag (same : List Nat) (j : Nat) (x : Movement) : Movement :=
  { x with instruction_type := some InstructionType.SKIRMISH,
           skirmishing_movements := same.filter fun y => y != j }

/-- `InstructionSet.set_movement_type` (gd/mechanics.py:662-691) for the
instruction at index k, against the owner map at classification time.
Precedence: Distribution (issuer owns the destination); Skirmish (some other
movement in the set targets the same destination, issued by a different
player who does not own that destination — in which case every movement to
that destination, whatever its earlier classification, is retagged Skirmish
and linked to the others); Expansion (neutral destination); otherwise
Invasion, with a symmetric mutual-invasion link to the first movement whose
issuer owns this destination and whose destination is this origin. -/
def set_movement_type (owner : Nat → Option Nat) (instrs : List Movement) (k : Nat) :
    List Movement :=
  let i := getIdx instrs k
  if some i.issuer = owner i.destination then
    setIdx instrs k { i with instruction_type := some .DISTRIBUTION }
  else if !(idxFilter instrs fun j =>
      j.destination == i.destination && j.issuer != i.issuer &&
        !(some j.issuer == owner j.destination)).isEmpty then
    let same := idxFilter instrs fun j => j.destination == i.destination
    same.foldl (fun acc j => setIdx acc j (skirmRetag same j (getIdx acc j))) instrs
  else if owner i.destination = none then
    setIdx instrs k { i with instruction_type := some .EXPANSION }
  else
    let withInv := setIdx instrs k { i with instruction_type := some .INVASION }
    match (idxFilter withInv fun j =>
        some j.issuer == owner i.destination && j.destination == i.origin).head? with
    | some m =>
      let w1 := setIdx withInv k { getIdx withInv k with mutual_invasion := some m }
      setIdx w1 m { getIdx w1 m with mutual_invasion := some k }
    | none => withInv

/-- `InstructionSet.add_instruction` (gd/mechanics.py:650-660) for a Movement
not yet in the set: append it, then classify it in the context of the set. -/
def add_instruction (owner : Nat → Option Nat) (instrs : List Movement) (m : Movement) :
    List Movement :=
  set_movement_type owner (instrs ++ [m]) instrs.length

/-! ## The phase scheduler (Turn) -/

/-- The MOVEMENT-phase filter of `Turn.register` (gd/mechanics.py:86-89): a
Movement joins the MOVEMENT phase when its origin has no owner, or its
destination has no owner, or issuer, origin owner and destination owner all
coincide (Python's chained `i.issuer == i.origin.owner == i.destination.owner`). -/
def movement_phase_pred (owner : Nat → Option Nat) (i : Movement) : Bool :=
  owner i.origin == none || owner i.destination == none ||
    (some i.issuer == owner i.origin && owner i.origin == owner i.destination)

/-- `Turn.register` restricted to Movement instructions (gd/mechanics.py:74-97):
the NATURAL and GENERATION phases select only CreateHeadquarter and SpawnTroops
instructions and CONSTRUCTION/FINAL select nothing, so Movements are split
between the MOVEMENT phase (movement_phase_pred) and the instructions left
pending for the BATTLE phase. -/
def register_phases (owner : Nat → Option Nat) (instrs : List Movement) :
    List Movement × List Movement :=
  (instrs.filter (movement_phase_pred owner),
   instrs.filter fun i => !movement_phase_pred owner i)

/-- The placement test of `Turn.register_battle_phase` (gd/mechanics.py:115-116):
an instruction joins the current pass's set when no instruction of the pass's
pending list — the comprehension ranges over the whole list, the instruction
itself included — has the same issuer and a destination equal to this
instruction's origin. -/
def battle_placed (pending : List Movement) (i : Movement) : Bool :=
  !(pending.any fun j => j.issuer == i.issuer && j.destination == i.origin)

/-- One pass of `Turn.register_battle_phase`: once a BATTLE set already exists
(already = true) every pending instruction iterated over is first marked
allow_insufficient_troops (gd/mechanics.py:109-113); the pass places the
pending instructions passing battle_placed and leaves the rest pending. -/
def battle_pass (already : Bool) (pending : List Movement) :
    List Movement × List Movement :=
  let pending := if already then
    pending.map (fun i => { i with allow_insufficient := true }) else pending
  (pending.filter (battle_placed pending),
   pending.filter fun i => !battle_placed pending i)

/-- `Turn.register_battle_phase` (gd/mechanics.py:99-132): repeated passes until
nothing is pending; a pass that places nothing while instructions remain
raises InstructionSetNotConstructible. Fuel bounds the number of passes (each
real pass removes at least one instruction, so pending.length suffices). -/
def register_battle_phase (fuel : Nat) (already : Bool) (pending : List Movement) :
    List (List Movement) × Option Err :=
  match fuel with
  | 0 => ([], some .outOfFuel)
  | n + 1 =>
    if pending.isEmpty then ([], none)
    else
      match battle_pass already pending with
      | (placed, rest) =>
        if placed.isEmpty then ([], some .instructionSetNotConstructible)
        else
          match register_battle_phase n true rest with
          | (sets, e) => (placed :: sets, e)

/-! ## Basic lemmas about the index operations -/

theorem getIdx_setIdx_self (l : List Movement) (k : Nat) (v : Movement)
    (h : k < l.length) : getIdx (setIdx l k v) k = v := by
  induction l generalizing k with
  | nil => simp at h
  | cons x xs ih =>
    cases k with
    | zero => rfl
    | succ n => exact ih n (by simpa using h)

theorem getIdx_setIdx_ne (l : List Movement) (j k : Nat) (v : Movement)
    (h : j ≠ k) : getIdx (setIdx l j v) k = getIdx l k := by
  induction l generalizing j k with
  | nil => rfl
  | cons x xs ih =>
    cases j with
    | zero => cases k with
      | zero => exact absurd rfl h
      | succ n => rfl
    | succ m => cases k with
      | zero => rfl
      | succ n => exact ih m n (by omega)

theorem setIdx_of_ge (l : List Movement) (k : Nat) (v : Movement)
    (h : l.length ≤ k) : setIdx l k v = l := by
  induction l generalizing k with
  | nil => rfl
  | cons x xs ih =>
    cases k with
    | zero => simp at h
    | succ n => simpa [setIdx] using ih n (by simpa using h)

theorem getIdx_of_ge (l : List Movement) (k : Nat) (h : l.length ≤ k) :
    getIdx l k = default := by
  induction l generalizing k with
  | nil => cases k <;> rfl
  | cons x xs ih =>
    cases k with
    | zero => simp at h
    | succ n => exact ih n (by simpa using h)

theorem setIdx_length (l : List Movement) (k : Nat) (v : Movement) :
    (setIdx l k v).length = l.length := by
  induction l generalizing k with
  | nil => rfl
  | cons x xs ih => cases k with
    | zero => rfl
    | succ n => simpa [setIdx] using ih n

theorem getIdx_append_lt (l : List Movement) (m : Movement) (j : Nat)
    (h : j < l.length) : getIdx (l ++ [m]) j = getIdx l j := by
  induction l generalizing j with
  | nil => simp at h
  | cons x xs ih =>
    cases j with
    | zero => rfl
    | succ n => exact ih n (by simpa using h)

theorem getIdx_append_self (l : List Movement) (m : Movement) :
    getIdx (l ++ [m]) l.length = m := by
  induction l with
  | nil => rfl
  | cons x xs ih => simpa [getIdx] using ih

theorem modInstr_world (st : State) (k : Nat) (f : Movement → Movement) :
    (modInstr st k f).world = st.world := rfl

theorem setWorld_instrs (st : State) (w : Nat → Territory) :
    (setWorld st w).instrs = st.instrs := rfl

/-! ## Claim C2 — the circular three-invasion chain (spec Scenario B)

Three territories t1, t2, t3 with 5, 20 and 20 troops, each owned by a
different player; i1: t1→t2 moving 4, i2: t2→t3 moving 4, i3: t3→t1 moving 4,
built into one InstructionSet through add_instruction. Executing i1 alone
must resolve all three, leaving t1 with one troop owned by i3's issuer and 14
troops on each of t2 and t3. -/

/-- Boundaries t1-t2, t2-t3, t3-t1 (a triangle; adjacency is symmetric). -/
def c2adj : Nat → Nat → Bool := fun a b =>
  (a == 1 && b == 2) || (a == 2 && b == 1) || (a == 2 && b == 3) ||
  (a == 3 && b == 2) || (a == 3 && b == 1) || (a == 1 && b == 3)

/-- Owner map at classification time: player j owns territory j. -/
def c2owner : Nat → Option Nat := fun t =>
  if t = 1 then some 1 else if t = 2 then some 2 else if t = 3 then some 3 else none

def c2world : Nat → Territory := fun t =>
  if t = 1 then ⟨some 1, 5, false⟩ else if t = 2 then ⟨some 2, 20, false⟩
  else if t = 3 then ⟨some 3, 20, false⟩ else default

def c2i1 : Movement := { issuer := 1, origin := 1, destination := 2, num_troops := 4 }
def c2i2 : Movement := { issuer := 2, origin := 2, destination := 3, num_troops := 4 }
def c2i3 : Movement := { issuer := 3, origin := 3, destination := 1, num_troops := 4 }

/-- The instruction set of Scenario B, built the way the source builds it:
each Movement is classified by add_instruction as it joins the set. -/
def c2instrs : List Movement :=
  add_instruction c2owner (add_instruction c2owner (add_instruction c2owner [] c2i1) c2i2) c2i3

/-- Executing i1 (index 0) alone. -/
def c2res : State × Option Err := run c2adj 30 (.execute 0) ⟨c2world, c2instrs⟩

/-- C2: in the circular chain t1(5)→t2(20)→t3(20)→t1 with 4 troops requested
on each leg, executing i1 alone succeeds and leaves all three instructions
Executed, t1 with 1 troop owned by the issuer of i3 (player 3), t2 with 14
troops and t3 with 14 troops. The classification conjuncts record that the
set was built as battle instructions (all three are Invasions). -/
theorem C2_circular_chain :
    (getIdx c2instrs 0).instruction_type = some .INVASION ∧
    (getIdx c2instrs 1).instruction_type = some .INVASION ∧
    (getIdx c2instrs 2).instruction_type = some .INVASION ∧
    c2res.2 = none ∧
    c2res.1.world 1 = ⟨some c2i3.issuer, 1, false⟩ ∧
    (c2res.1.world 2).troops = 14 ∧ (c2res.1.world 2).owner = some 2 ∧
    (c2res.1.world 3).troops = 14 ∧ (c2res.1.world 3).owner = some 3 ∧
    (getIdx c2res.1.instrs 0).is_executed = true ∧
    (getIdx c2res.1.instrs 1).is_executed = true ∧
    (getIdx c2res.1.instrs 2).is_executed = true := by
  decide

/-! ## Claim C1 — invasion troop accounting -/

/-- Every territory adjacent to every other: the adjacency hypothesis of C1. -/
def adjAll : Nat → Nat → Bool := fun _ _ => true

/-- A two-territory world: the origin (territory 1) owned by player p with O
troops, the destination (territory 2) owned by q with D troops and the given
constructs flag. -/
def invWorld (p : Nat) (q : Option Nat) (O D : Nat) (hasC : Bool) : Nat → Territory :=
  fun t => if t = 1 then ⟨some p, O, false⟩ else if t = 2 then ⟨q, D, hasC⟩ else default

/-- The invasion instruction of C1, already classified Invasion, with no
mutual-invasion peer, partial execution not allowed, and nothing moved yet. -/
def invInstr (p : Nat) (R : Int) : Movement :=
  { issuer := p, origin := 1, destination := 2, num_troops := R,
    instruction_type := some .INVASION }

/-- The C1 instruction at an intermediate execution state: moved troops so
far and the two execution flags vary, everything else is as in invInstr. -/
def invInstrSt (p : Nat) (R m : Int) (executing executed : Bool) : Movement :=
  { issuer := p, origin := 1, destination := 2, num_troops := R, num_troops_moved := m,
    instruction_type := some .INVASION, is_executing := executing, is_executed := executed }

theorem setOwner_apply_self (w : Nat → Territory) (t : Nat) (o : Option Nat) :
    setOwner w t o t = { w t with owner := o } := by
  simp [setOwner]

theorem setOwner_apply_ne (w : Nat → Territory) (t : Nat) (o : Option Nat) (x : Nat)
    (h : x ≠ t) : setOwner w t o x = w x := by
  simp [setOwner, h]

theorem owner_setTroops (w : Nat → Territory) (t n x : Nat) :
    (setTroops w t n x).owner = (w x).owner := by
  by_cases h : x = t
  · subst h
    simp [setTroops]
  · simp [setTroops, h]

theorem hasConstructs_setTroops (w : Nat → Territory) (t n x : Nat) :
    (setTroops w t n x).hasConstructs = (w x).hasConstructs := by
  by_cases h : x = t
  · subst h
    simp [setTroops]
  · simp [setTroops, h]

theorem troopsAt_setOwner (w : Nat → Territory) (t : Nat) (o : Option Nat) (x : Nat) :
    troopsAt (setOwner w t o) x = troopsAt w x := by
  by_cases h : x = t
  · subst h
    simp [troopsAt, setOwner]
  · simp [troopsAt, setOwner, h]

theorem hasConstructs_setOwner (w : Nat → Territory) (t : Nat) (o : Option Nat) (x : Nat) :
    (setOwner w t o x).hasConstructs = (w x).hasConstructs := by
  by_cases h : x = t
  · subst h
    simp [setOwner]
  · simp [setOwner, h]

theorem invWorld_one (p : Nat) (q : Option Nat) (O D : Nat) (hasC : Bool) :
    invWorld p q O D hasC 1 = ⟨some p, O, false⟩ := by
  simp [invWorld]

theorem invWorld_two (p : Nat) (q : Option Nat) (O D : Nat) (hasC : Bool) :
    invWorld p q O D hasC 2 = ⟨q, D, hasC⟩ := by
  simp [invWorld]

/-- The execution studied by C1: the invasion is the only instruction of its
set, so no unexecuted instruction originates at its destination. -/
def invScenario (p : Nat) (q : Option Nat) (O D : Nat) (hasC : Bool) (R : Int) :
    State × Option Err :=
  run adjAll 2 (.execute 0) ⟨invWorld p q O D hasC, [invInstr p R]⟩

/-- C1 fails as stated: with origin troops O = 5, destination troops D = 5
and requested R = 1, the claim's formula says the attacker loses
min(R, P + min(max(R-P,0), D)) = min(1, 2) = 1 troop and the destination is
untouched. The code instead removes the full 2-troop penalty from the origin
(the penalty loop ignores R and counts both removals as moved troops) and
then calls take_unit with the now negative amount R - 2 = -1, raising
ValueError: execution aborts with the origin at 3 troops, a loss of 2 ≠ 1. -/
theorem C1_counterexample :
    (invScenario 1 (some 2) 5 5 false 1).2 = some Err.valueError ∧
    ((invScenario 1 (some 2) 5 5 false 1).1.world 1).troops = 3 ∧
    ((invScenario 1 (some 2) 5 5 false 1).1.world 2).troops = 5 ∧
    ¬((5 : Int) - (((invScenario 1 (some 2) 5 5 false 1).1.world 1).troops : Int) =
      min (1 : Int) (2 + min (max ((1 : Int) - 2) 0) 5)) := by
  decide

/-! ## World-update algebra and the trade-loop closed form -/

theorem setTroops_apply_self (w : Nat → Territory) (t n : Nat) :
    setTroops w t n t = { w t with troops := n } := by
  simp [setTroops]

theorem setTroops_apply_ne (w : Nat → Territory) (t n x : Nat) (h : x ≠ t) :
    setTroops w t n x = w x := by
  simp [setTroops, h]

theorem troopsAt_setTroops_self (w : Nat → Territory) (t n : Nat) :
    troopsAt (setTroops w t n) t = n := by
  simp [troopsAt, setTroops]

theorem troopsAt_setTroops_ne (w : Nat → Territory) (t n x : Nat) (h : x ≠ t) :
    troopsAt (setTroops w t n) x = troopsAt w x := by
  simp [troopsAt, setTroops, h]

theorem setTroops_self_eq (w : Nat → Territory) (t : Nat) :
    setTroops w t (troopsAt w t) = w := by
  funext x
  by_cases h : x = t
  · subst h
    simp [setTroops, troopsAt]
  · simp [setTroops, h]

theorem setTroops_setTroops_self (w : Nat → Territory) (t a b : Nat) :
    setTroops (setTroops w t a) t b = setTroops w t b := by
  funext x
  by_cases h : x = t
  · subst h
    simp [setTroops]
  · simp [setTroops, h]

theorem setTroops_comm (w : Nat → Territory) (o d a b : Nat) (h : o ≠ d) :
    setTroops (setTroops w o a) d b = setTroops (setTroops w d b) o a := by
  funext x
  by_cases ho : x = o
  · subst ho
    simp [setTroops, h, Ne.symm h]
  · by_cases hd : x = d
    · subst hd
      simp [setTroops, h, Ne.symm h, ho]
    · simp [setTroops, ho, hd]

/-- Closed form of the gas-indexed trade loop: with enough gas it trades
exactly s = min(requested remainder, origin troops, destination troops)
troops off each side. -/
theorem tradeLoopAux_spec (o d : Nat) (hod : o ≠ d) (num : Int) :
    ∀ (gas : Nat) (w : Nat → Territory) (moved : Int), (num - moved).toNat ≤ gas →
      tradeLoopAux o d num gas w moved =
        (setTroops (setTroops w o
            (troopsAt w o - min ((num - moved).toNat) (min (troopsAt w o) (troopsAt w d)))) d
            (troopsAt w d - min ((num - moved).toNat) (min (troopsAt w o) (troopsAt w d))),
         moved + (min ((num - moved).toNat) (min (troopsAt w o) (troopsAt w d)) : Nat)) := by
  intro gas
  induction gas with
  | zero =>
    intro w moved hgas
    have h0 : (num - moved).toNat = 0 := Nat.le_zero.mp hgas
    rw [tradeLoopAux, h0]
    simp [setTroops_self_eq]
  | succ g ih =>
    intro w moved hgas
    rw [tradeLoopAux]
    by_cases hlt : moved < num
    · rw [if_pos hlt]
      by_cases hto : 0 < troopsAt w o
      · by_cases htd : 0 < troopsAt w d
        · rw [if_pos ⟨hto, htd⟩]
          dsimp only
          have hrw : setTroops (setTroops w o (troopsAt w o - 1)) d
              (troopsAt (setTroops w o (troopsAt w o - 1)) d - 1) =
              setTroops (setTroops w o (troopsAt w o - 1)) d (troopsAt w d - 1) := by
            rw [troopsAt_setTroops_ne _ _ _ _ (Ne.symm hod)]
          rw [hrw]
          have hgas2 : (num - (moved + 1)).toNat ≤ g := by omega
          rw [ih _ (moved + 1) hgas2]
          have ho2 : troopsAt (setTroops (setTroops w o (troopsAt w o - 1)) d
              (troopsAt w d - 1)) o = troopsAt w o - 1 := by
            rw [troopsAt_setTroops_ne _ _ _ _ hod, troopsAt_setTroops_self]
          have hd2 : troopsAt (setTroops (setTroops w o (troopsAt w o - 1)) d
              (troopsAt w d - 1)) d = troopsAt w d - 1 := by
            rw [troopsAt_setTroops_self]
          rw [ho2, hd2]
          have hs : min ((num - (moved + 1)).toNat)
              (min (troopsAt w o - 1) (troopsAt w d - 1)) + 1 =
              min ((num - moved).toNat) (min (troopsAt w o) (troopsAt w d)) := by
            omega
          simp only [Prod.mk.injEq]
          constructor
          · rw [setTroops_comm w o d (troopsAt w o - 1) (troopsAt w d - 1) hod,
              setTroops_setTroops_self,
              setTroops_comm (setTroops w d (troopsAt w d - 1)) o d _ _ hod,
              setTroops_setTroops_self,
              setTroops_comm w d o _ _ (Ne.symm hod)]
            have hA : troopsAt w o - 1 - min ((num - (moved + 1)).toNat)
                (min (troopsAt w o - 1) (troopsAt w d - 1)) =
                troopsAt w o - min ((num - moved).toNat)
                  (min (troopsAt w o) (troopsAt w d)) := by
              omega
            have hB : troopsAt w d - 1 - min ((num - (moved + 1)).toNat)
                (min (troopsAt w o - 1) (troopsAt w d - 1)) =
                troopsAt w d - min ((num - moved).toNat)
                  (min (troopsAt w o) (troopsAt w d)) := by
              omega
            rw [hA, hB]
          · omega
        · rw [if_neg (by tauto)]
          have : min ((num - moved).toNat) (min (troopsAt w o) (troopsAt w d)) = 0 := by
            omega
          rw [this]
          simp [setTroops_self_eq]
      · rw [if_neg (by tauto)]
        have : min ((num - moved).toNat) (min (troopsAt w o) (troopsAt w d)) = 0 := by
          omega
        rw [this]
        simp [setTroops_self_eq]
    · rw [if_neg hlt]
      have : (num - moved).toNat = 0 := by omega
      rw [this]
      simp [setTroops_self_eq]

/-- Closed form of the trade loop itself. -/
theorem tradeLoop_spec (w : Nat → Territory) (o d : Nat) (hod : o ≠ d) (num moved : Int) :
    tradeLoop w o d num moved =
      (setTroops (setTroops w o
          (troopsAt w o - min ((num - moved).toNat) (min (troopsAt w o) (troopsAt w d)))) d
          (troopsAt w d - min ((num - moved).toNat) (min (troopsAt w o) (troopsAt w d))),
       moved + (min ((num - moved).toNat) (min (troopsAt w o) (troopsAt w d)) : Nat)) :=
  tradeLoopAux_spec o d hod num _ w moved (Nat.le_refl _)

/-! ## Claim C6 — validation failures mutate nothing -/

/-- Marking the instruction as executing (the step the source performs just
before validating) does not change the validation outcome: assert_is_valid
only reads fields the mark leaves alone. -/
theorem assert_is_valid_mod_executing (adj : Nat → Nat → Bool) (st : State) (k : Nat) :
    assert_is_valid adj (modInstr st k fun x => { x with is_executing := true }) k =
      assert_is_valid adj st k := by
  unfold assert_is_valid modInstr
  rcases Nat.lt_or_ge k st.instrs.length with h | h
  · rw [getIdx_setIdx_self _ _ _ h]
  · rw [setIdx_of_ge _ _ _ h]

/-- When one of the three validation conditions fails, assert_is_valid
returns the corresponding error. -/
theorem assert_is_valid_fails (adj : Nat → Nat → Bool) (st : State) (k : Nat)
    (hfail : (st.world (getIdx st.instrs k).origin).owner ≠ some (getIdx st.instrs k).issuer ∨
      ((troopsAt st.world (getIdx st.instrs k).origin : Int) < (getIdx st.instrs k).num_troops ∧
        (getIdx st.instrs k).allow_insufficient = false) ∨
      adj (getIdx st.instrs k).origin (getIdx st.instrs k).destination = false) :
    assert_is_valid adj st k = some Err.issuerDoesNotOwnTerritory ∨
    assert_is_valid adj st k = some Err.insufficientUnits ∨
    assert_is_valid adj st k = some Err.targetNotAdjacent := by
  unfold assert_is_valid
  split_ifs with h1 h2 h3
  · exact Or.inl rfl
  · exact Or.inr (Or.inl rfl)
  · exact Or.inr (Or.inr rfl)
  · exfalso
    rcases hfail with h | ⟨ha, hb⟩ | h
    · exact h1 h
    · exact h2 (by simp [ha, hb])
    · exact h3 (by simp [h])

/-- C6: whenever Movement.execute raises a validation error — the issuer does
not own the origin, the requested troops exceed the available troops without
partial execution allowed, or the destination is not adjacent — no World
state is mutated: every territory's units and owner are exactly as before the
call (only the instruction's own is_executing flag was touched). -/
theorem C6_validation_no_mutation (adj : Nat → Nat → Bool) (n : Nat) (st : State) (k : Nat)
    (hexecuting : (getIdx st.instrs k).is_executing = false)
    (hexecuted : (getIdx st.instrs k).is_executed = false)
    (hfail : (st.world (getIdx st.instrs k).origin).owner ≠ some (getIdx st.instrs k).issuer ∨
      ((troopsAt st.world (getIdx st.instrs k).origin : Int) < (getIdx st.instrs k).num_troops ∧
        (getIdx st.instrs k).allow_insufficient = false) ∨
      adj (getIdx st.instrs k).origin (getIdx st.instrs k).destination = false) :
    ((run adj (n + 1) (.execute k) st).2 = some Err.issuerDoesNotOwnTerritory ∨
     (run adj (n + 1) (.execute k) st).2 = some Err.insufficientUnits ∨
     (run adj (n + 1) (.execute k) st).2 = some Err.targetNotAdjacent) ∧
    ∀ t, ((run adj (n + 1) (.execute k) st).1).world t = st.world t := by
  have hval := assert_is_valid_fails adj st k hfail
  have hmod := assert_is_valid_mod_executing adj st k
  simp only [run, executeBody, hexecuting, hexecuted, Bool.false_eq_true, if_false]
  rcases hval with h | h | h <;>
    rw [hmod.trans h] <;>
    exact ⟨by simp, fun t => rfl⟩

/-- Witness for C6 at a concrete input: a single instruction whose issuer
does not own the origin. -/
def c6world : Nat → Territory := fun t =>
  if t = 1 then ⟨some 9, 5, false⟩ else if t = 2 then ⟨some 2, 5, false⟩ else default

def c6st : State := ⟨c6world, [invInstr 1 3]⟩

/-! ## Claim C7 — a second execute raises InstructionAlreadyExecuted

The key invariant: once an instruction is Executed and not Executing, no part
of the resolver ever clears is_executed or sets is_executing again (the only
site setting is_executing is guarded by the two state checks, which throw
first). The lemmas below push this invariant through every helper and then
through the fuel-indexed interpreter. -/

/-- The invariant for the instruction at index k: executed, and no longer
executing. -/
def Pk (k : Nat) (st : State) : Prop :=
  (getIdx st.instrs k).is_executed = true ∧ (getIdx st.instrs k).is_executing = false

/-- Modifiers that cannot falsify Pk: they keep is_executed true and keep
is_executing false. -/
def keepsFlags (f : Movement → Movement) : Prop :=
  ∀ x, (x.is_executed = true → (f x).is_executed = true) ∧
    (x.is_executing = false → (f x).is_executing = false)

theorem Pk_modInstr {k : Nat} {st : State} (j : Nat) (f : Movement → Movement)
    (hf : keepsFlags f) (h : Pk k st) : Pk k (modInstr st j f) := by
  unfold Pk modInstr at *
  by_cases hjk : j = k
  · subst hjk
    rcases Nat.lt_or_ge j st.instrs.length with hl | hl
    · rw [getIdx_setIdx_self _ _ _ hl]
      exact ⟨(hf _).1 h.1, (hf _).2 h.2⟩
    · rw [setIdx_of_ge _ _ _ hl]
      exact h
  · rw [getIdx_setIdx_ne _ _ _ _ hjk]
    exact h

theorem Pk_setWorld {k : Nat} {st : State} (w : Nat → Territory) (h : Pk k st) :
    Pk k (setWorld st w) := h

theorem keepsFlags_moved (c : Int) :
    keepsFlags fun x => { x with num_troops_moved := x.num_troops_moved + c } :=
  fun _ => ⟨id, id⟩

theorem keepsFlags_moved_set (m : Int) :
    keepsFlags fun x => { x with num_troops_moved := m } :=
  fun _ => ⟨id, id⟩

theorem keepsFlags_allow : keepsFlags fun x => { x with allow_insufficient := true } :=
  fun _ => ⟨id, id⟩

theorem keepsFlags_loop : keepsFlags fun x => { x with is_part_of_loop := true } :=
  fun _ => ⟨id, id⟩

theorem keepsFlags_reset : keepsFlags fun x => { x with is_executing := false } :=
  fun _ => ⟨id, fun _ => rfl⟩

theorem keepsFlags_finish : keepsFlags fun x => { x with is_executed := true } :=
  fun _ => ⟨fun _ => rfl, id⟩

theorem Pk_penaltyStep (k0 : Nat) (isMut : Bool) {k : Nat} {st : State} (h : Pk k st) :
    Pk k (penaltyStep st k0 isMut).1 := by
  unfold penaltyStep
  dsimp only
  split
  · exact Pk_setWorld _ h
  · split
    · split
      · exact Pk_setWorld _ h
      · exact Pk_modInstr _ _ (keepsFlags_moved 1) (Pk_setWorld _ h)
    · exact Pk_modInstr _ _ (keepsFlags_moved 1) (Pk_setWorld _ h)

/-- Transfer Pk across an equation naming the components of a result pair. -/
theorem Pk_of_eq {k : Nat} {p : State × Option Err} {st1 : State} {e : Option Err}
    (heq : p = (st1, e)) (hp : Pk k p.1) : Pk k st1 := by
  rw [heq] at hp
  exact hp

theorem Pk_penalty (k0 : Nat) (isMut allow : Bool) {k : Nat} {st : State} (h : Pk k st) :
    Pk k (penalty st k0 isMut allow).1 := by
  unfold penalty
  split
  case _ st1 e heq =>
    have h1 := Pk_of_eq heq (Pk_penaltyStep k0 isMut h)
    split <;> exact h1
  case _ st1 heq =>
    have h1 := Pk_of_eq heq (Pk_penaltyStep k0 isMut h)
    split
    case _ st2 e heq2 =>
      have h2 := Pk_of_eq heq2 (Pk_penaltyStep k0 isMut h1)
      split <;> exact h2
    case _ st2 heq2 =>
      exact Pk_of_eq heq2 (Pk_penaltyStep k0 isMut h1)

theorem Pk_resetExecuting (js : List Nat) {k : Nat} {st : State} (h : Pk k st) :
    Pk k (resetExecuting st js) := by
  induction js generalizing st with
  | nil => exact h
  | cons j rest ih => exact ih (Pk_modInstr _ _ keepsFlags_reset h)

theorem Pk_markFinished (peers : List Nat) {k : Nat} {st : State} (h : Pk k st) :
    Pk k (markFinished st peers) := by
  induction peers generalizing st with
  | nil => exact h
  | cons j rest ih =>
    unfold markFinished at *
    simp only [List.foldl_cons]
    split
    · exact ih (Pk_modInstr _ _ keepsFlags_finish h)
    · exact ih h

theorem Pk_skirmishTake (j : Nat) {k : Nat} {st : State} (h : Pk k st) :
    Pk k (skirmishTake st j).1 := by
  unfold skirmishTake
  dsimp only
  split
  · exact h
  · exact Pk_modInstr _ _ (keepsFlags_moved 1) (Pk_setWorld _ h)

theorem Pk_skirmishPeersRound (peers : List Nat) {k : Nat} {st : State} (h : Pk k st) :
    Pk k (skirmishPeersRound st peers).1 := by
  induction peers generalizing st with
  | nil => exact h
  | cons j rest ih =>
    unfold skirmishPeersRound
    split
    case _ st1 e heq => exact Pk_of_eq heq (Pk_skirmishTake j h)
    case _ st1 heq => exact ih (Pk_of_eq heq (Pk_skirmishTake j h))

theorem Pk_skirmishRounds (k0 : Nat) (peers : List Nat) (n : Nat) {k : Nat} {st : State}
    (h : Pk k st) : Pk k (skirmishRounds k0 peers n st).1 := by
  induction n generalizing st with
  | zero => exact h
  | succ m ih =>
    unfold skirmishRounds
    split
    case _ st1 e heq => exact Pk_of_eq heq (Pk_skirmishTake k0 h)
    case _ st1 heq =>
      have h1 := Pk_of_eq heq (Pk_skirmishTake k0 h)
      split
      case _ st2 e heq2 => exact Pk_of_eq heq2 (Pk_skirmishPeersRound peers h1)
      case _ st2 heq2 => exact ih (Pk_of_eq heq2 (Pk_skirmishPeersRound peers h1))

theorem Pk_invadeHp (recur : Call → State → State × Option Err) (k0 : Nat) {k : Nat}
    (hrec : ∀ c s, Pk k s → Pk k (recur c s).1) {st : State} (h : Pk k st) :
    Pk k (invadeHp recur k0 st).1 := by
  unfold invadeHp
  dsimp only
  split
  · exact h
  · split
    case _ st1 heq =>
      exact Pk_resetExecuting _ (Pk_of_eq heq (hrec _ _ h))
    case _ st1 e heq =>
      have h1 := Pk_of_eq heq (hrec _ _ h)
      split
      · split
        · exact h1
        · split
          · exact Pk_resetExecuting _ (Pk_modInstr _ _ keepsFlags_loop h1)
          · exact Pk_modInstr _ _ keepsFlags_loop h1
      · exact h1

theorem Pk_invadePenalty (k0 : Nat) {k : Nat} {st : State} (h : Pk k st) :
    Pk k (invadePenalty st k0).1 := by
  unfold invadePenalty
  split
  · exact Pk_penalty _ _ _ h
  · split
    · exact h
    · exact Pk_penalty _ _ _ h

theorem Pk_invadeFinish (k0 : Nat) {k : Nat} {st : State} (h : Pk k st) :
    Pk k (invadeFinish k0 st).1 := by
  unfold invadeFinish
  dsimp only
  split
  · exact h
  · split
    · exact Pk_modInstr _ _ (keepsFlags_moved _) (Pk_setWorld _ h)
    · split
      · exact Pk_setWorld _ h
      · exact h

theorem Pk_invadeMain (k0 : Nat) {k : Nat} {st : State} (h : Pk k st) :
    Pk k (invadeMain k0 st).1 := by
  unfold invadeMain
  split
  case _ stB e heq => exact Pk_of_eq heq (Pk_invadePenalty k0 h)
  case _ stB heq =>
    have h1 := Pk_of_eq heq (Pk_invadePenalty k0 h)
    split
    exact Pk_invadeFinish k0 (Pk_modInstr _ _ (keepsFlags_moved_set _) (Pk_setWorld _ h1))

theorem Pk_expansionBody (recur : Call → State → State × Option Err) (k0 : Nat) {k : Nat}
    (hrec : ∀ c s, Pk k s → Pk k (recur c s).1) {st : State} (h : Pk k st) :
    Pk k (expansionBody recur k0 st).1 := by
  unfold expansionBody
  dsimp only
  split
  · exact hrec _ _ h
  · exact Pk_modInstr _ _ (keepsFlags_moved_set _) (Pk_setWorld _ (Pk_setWorld _ h))

theorem Pk_skirmishAfter (recur : Call → State → State × Option Err) (k0 : Nat) {k : Nat}
    (hrec : ∀ c s, Pk k s → Pk k (recur c s).1) {st : State} (h : Pk k st) :
    Pk k (skirmishAfter recur k0 st).1 := by
  unfold skirmishAfter
  split
  · exact h
  · split
    · split
      · exact hrec _ _ h
      · exact hrec _ _ h
    · exact h

theorem Pk_skirmishBody (recur : Call → State → State × Option Err) (k0 : Nat)
    (peers : List Nat) {k : Nat} (hrec : ∀ c s, Pk k s → Pk k (recur c s).1) {st : State}
    (h : Pk k st) : Pk k (skirmishBody recur k0 peers st).1 := by
  unfold skirmishBody
  dsimp only
  split
  case _ st1 e heq => exact Pk_of_eq heq (Pk_skirmishRounds k0 peers _ h)
  case _ st1 heq =>
    have h2 := Pk_markFinished peers (Pk_of_eq heq (Pk_skirmishRounds k0 peers _ h))
    split
    · exact h2
    · split
      · exact Pk_skirmishAfter recur k0 hrec h2
      · split
        case _ st3 e heq3 => exact Pk_of_eq heq3 (hrec _ _ h2)
        case _ st3 heq3 =>
          exact Pk_skirmishAfter recur k0 hrec (Pk_of_eq heq3 (hrec _ _ h2))

theorem Pk_dispatchBody (recur : Call → State → State × Option Err) (k0 : Nat) {k : Nat}
    (hrec : ∀ c s, Pk k s → Pk k (recur c s).1) {st : State} (h : Pk k st) :
    Pk k (dispatchBody recur k0 st).1 := by
  unfold dispatchBody
  split
  · exact hrec _ _ h
  · exact hrec _ _ h
  · split
    · exact h
    · exact hrec _ _ h
  · exact hrec _ _ h
  · exact h

theorem Pk_executeTail (recur : Call → State → State × Option Err) (k0 : Nat) {k : Nat}
    (hrec : ∀ c s, Pk k s → Pk k (recur c s).1) {st : State} (h : Pk k st) :
    Pk k (executeTail recur k0 st).1 := by
  unfold executeTail
  dsimp only
  have h3 : Pk k (modInstr st k0 fun x =>
      { x with is_executed := true, is_executing := false }) :=
    Pk_modInstr _ _ (fun _ => ⟨fun _ => rfl, fun _ => rfl⟩) h
  split
  · exact hrec _ _ h3
  · exact h3

theorem Pk_executeBody (adj : Nat → Nat → Bool) (recur : Call → State → State × Option Err)
    (k0 : Nat) {k : Nat} (hrec : ∀ c s, Pk k s → Pk k (recur c s).1) {st : State}
    (h : Pk k st) : Pk k (executeBody adj recur k0 st).1 := by
  unfold executeBody
  by_cases hk : k0 = k
  · subst hk
    rw [if_neg (by rw [h.2]; exact Bool.false_ne_true)]
    rw [if_pos h.1]
    exact h
  · have h1 : Pk k (modInstr st k0 fun x => { x with is_executing := true }) := by
      unfold Pk modInstr at *
      rw [getIdx_setIdx_ne _ _ _ _ hk]
      exact h
    split
    · exact h
    · split
      · exact h
      · split
        · exact h1
        · split
          case _ st2 e heq2 => exact Pk_of_eq heq2 (Pk_dispatchBody recur k0 hrec h1)
          case _ st2 heq2 =>
            exact Pk_executeTail recur k0 hrec
              (Pk_of_eq heq2 (Pk_dispatchBody recur k0 hrec h1))

theorem Pk_execListBody (recur : Call → State → State × Option Err) (setAllow : Bool)
    (js : List Nat) {k : Nat} (hrec : ∀ c s, Pk k s → Pk k (recur c s).1) {st : State}
    (h : Pk k st) : Pk k (execListBody recur setAllow js st).1 := by
  unfold execListBody
  cases js with
  | nil => exact h
  | cons j rest =>
    dsimp only
    have hJ : Pk k (if setAllow then
        modInstr st j fun x => { x with allow_insufficient := true } else st) := by
      split
      · exact Pk_modInstr _ _ keepsFlags_allow h
      · exact h
    split
    case _ st1 e heq => exact Pk_of_eq heq (hrec _ _ hJ)
    case _ st1 heq => exact hrec (.execList setAllow rest) st1 (Pk_of_eq heq (hrec _ _ hJ))

/-! Length invariance: no step of the resolver adds or removes instructions,
so list indices keep denoting the same instruction objects. -/

theorem len_modInstr (st : State) (k : Nat) (f : Movement → Movement) :
    (modInstr st k f).instrs.length = st.instrs.length := setIdx_length _ _ _

theorem len_of_eq {p : State × Option Err} {st1 : State} {e : Option Err} {L : Nat}
    (heq : p = (st1, e)) (hl : p.1.instrs.length = L) : st1.instrs.length = L := by
  rw [heq] at hl
  exact hl

theorem len_penaltyStep (st : State) (k0 : Nat) (isMut : Bool) :
    (penaltyStep st k0 isMut).1.instrs.length = st.instrs.length := by
  unfold penaltyStep
  dsimp only
  split
  · rfl
  · split
    · split
      · rfl
      · exact len_modInstr _ _ _
    · exact len_modInstr _ _ _

theorem len_penalty (st : State) (k0 : Nat) (isMut allow : Bool) :
    (penalty st k0 isMut allow).1.instrs.length = st.instrs.length := by
  unfold penalty
  split
  case _ st1 e heq =>
    have h1 := len_of_eq heq (len_penaltyStep st k0 isMut)
    split <;> exact h1
  case _ st1 heq =>
    have h1 := len_of_eq heq (len_penaltyStep st k0 isMut)
    split
    case _ st2 e heq2 =>
      have h2 := (len_of_eq heq2 (len_penaltyStep st1 k0 isMut)).trans h1
      split <;> exact h2
    case _ st2 heq2 => exact (len_of_eq heq2 (len_penaltyStep st1 k0 isMut)).trans h1

theorem len_resetExecuting (js : List Nat) (st : State) :
    (resetExecuting st js).instrs.length = st.instrs.length := by
  induction js generalizing st with
  | nil => rfl
  | cons j rest ih => exact (ih _).trans (len_modInstr _ _ _)

theorem len_markFinished (peers : List Nat) (st : State) :
    (markFinished st peers).instrs.length = st.instrs.length := by
  induction peers generalizing st with
  | nil => rfl
  | cons j rest ih =>
    unfold markFinished at *
    simp only [List.foldl_cons]
    split
    · exact (ih _).trans (len_modInstr _ _ _)
    · exact ih _

theorem len_skirmishTake (st : State) (j : Nat) :
    (skirmishTake st j).1.instrs.length = st.instrs.length := by
  unfold skirmishTake
  dsimp only
  split
  · rfl
  · exact len_modInstr _ _ _

theorem len_skirmishPeersRound (peers : List Nat) (st : State) :
    (skirmishPeersRound st peers).1.instrs.length = st.instrs.length := by
  induction peers generalizing st with
  | nil => rfl
  | cons j rest ih =>
    unfold skirmishPeersRound
    split
    case _ st1 e heq => exact len_of_eq heq (len_skirmishTake st j)
    case _ st1 heq => exact (ih _).trans (len_of_eq heq (len_skirmishTake st j))

theorem len_skirmishRounds (k0 : Nat) (peers : List Nat) (n : Nat) (st : State) :
    (skirmishRounds k0 peers n st).1.instrs.length = st.instrs.length := by
  induction n generalizing st with
  | zero => rfl
  | succ m ih =>
    unfold skirmishRounds
    split
    case _ st1 e heq => exact len_of_eq heq (len_skirmishTake st k0)
    case _ st1 heq =>
      have h1 := len_of_eq heq (len_skirmishTake st k0)
      split
      case _ st2 e heq2 => exact (len_of_eq heq2 (len_skirmishPeersRound peers st1)).trans h1
      case _ st2 heq2 =>
        exact (ih _).trans ((len_of_eq heq2 (len_skirmishPeersRound peers st1)).trans h1)

theorem len_invadeHp (recur : Call → State → State × Option Err) (k0 : Nat)
    (hrec : ∀ c s, (recur c s).1.instrs.length = s.instrs.length) (st : State) :
    (invadeHp recur k0 st).1.instrs.length = st.instrs.length := by
  unfold invadeHp
  dsimp only
  split
  · rfl
  · split
    case _ st1 heq =>
      exact (len_resetExecuting _ _).trans (len_of_eq heq (hrec _ _))
    case _ st1 e heq =>
      have h1 := len_of_eq heq (hrec _ _)
      split
      · split
        · exact h1
        · split
          · exact (len_resetExecuting _ _).trans ((len_modInstr _ _ _).trans h1)
          · exact (len_modInstr _ _ _).trans h1
      · exact h1

theorem len_invadePenalty (st : State) (k0 : Nat) :
    (invadePenalty st k0).1.instrs.length = st.instrs.length := by
  unfold invadePenalty
  split
  · exact len_penalty _ _ _ _
  · split
    · rfl
    · exact len_penalty _ _ _ _

theorem len_invadeFinish (k0 : Nat) (st : State) :
    (invadeFinish k0 st).1.instrs.length = st.instrs.length := by
  unfold invadeFinish
  dsimp only
  split
  · rfl
  · split
    · exact len_modInstr _ _ _
    · split
      · rfl
      · rfl

theorem len_invadeMain (k0 : Nat) (st : State) :
    (invadeMain k0 st).1.instrs.length = st.instrs.length := by
  unfold invadeMain
  split
  case _ stB e heq => exact len_of_eq heq (len_invadePenalty st k0)
  case _ stB heq =>
    have h1 := len_of_eq heq (len_invadePenalty st k0)
    split
    exact (len_invadeFinish _ _).trans ((len_modInstr _ _ _).trans h1)

theorem len_expansionBody (recur : Call → State → State × Option Err) (k0 : Nat)
    (hrec : ∀ c s, (recur c s).1.instrs.length = s.instrs.length) (st : State) :
    (expansionBody recur k0 st).1.instrs.length = st.instrs.length := by
  unfold expansionBody
  dsimp only
  split
  · exact hrec _ _
  · exact len_modInstr _ _ _

theorem len_skirmishAfter (recur : Call → State → State × Option Err) (k0 : Nat)
    (hrec : ∀ c s, (recur c s).1.instrs.length = s.instrs.length) (st : State) :
    (skirmishAfter recur k0 st).1.instrs.length = st.instrs.length := by
  unfold skirmishAfter
  split
  · rfl
  · split
    · split
      · exact hrec _ _
      · exact hrec _ _
    · rfl

theorem len_skirmishBody (recur : Call → State → State × Option Err) (k0 : Nat)
    (peers : List Nat) (hrec : ∀ c s, (recur c s).1.instrs.length = s.instrs.length)
    (st : State) : (skirmishBody recur k0 peers st).1.instrs.length = st.instrs.length := by
  unfold skirmishBody
  dsimp only
  split
  case _ st1 e heq => exact len_of_eq heq (len_skirmishRounds k0 peers _ st)
  case _ st1 heq =>
    have h1 := (len_markFinished peers st1).trans
      (len_of_eq heq (len_skirmishRounds k0 peers _ st))
    split
    · exact h1
    · split
      · exact (len_skirmishAfter recur k0 hrec _).trans h1
      · split
        case _ st3 e heq3 => exact (len_of_eq heq3 (hrec _ _)).trans h1
        case _ st3 heq3 =>
          exact (len_skirmishAfter recur k0 hrec _).trans
            ((len_of_eq heq3 (hrec _ _)).trans h1)

theorem len_dispatchBody (recur : Call → State → State × Option Err) (k0 : Nat)
    (hrec : ∀ c s, (recur c s).1.instrs.length = s.instrs.length) (st : State) :
    (dispatchBody recur k0 st).1.instrs.length = st.instrs.length := by
  unfold dispatchBody
  split
  · exact hrec _ _
  · exact hrec _ _
  · split
    · rfl
    · exact hrec _ _
  · exact hrec _ _
  · rfl

theorem len_executeTail (recur : Call → State → State × Option Err) (k0 : Nat)
    (hrec : ∀ c s, (recur c s).1.instrs.length = s.instrs.length) (st : State) :
    (executeTail recur k0 st).1.instrs.length = st.instrs.length := by
  unfold executeTail
  dsimp only
  split
  · exact (hrec _ _).trans (len_modInstr _ _ _)
  · exact len_modInstr _ _ _

theorem len_executeBody (adj : Nat → Nat → Bool) (recur : Call → State → State × Option Err)
    (k0 : Nat) (hrec : ∀ c s, (recur c s).1.instrs.length = s.instrs.length) (st : State) :
    (executeBody adj recur k0 st).1.instrs.length = st.instrs.length := by
  unfold executeBody
  split
  · rfl
  · split
    · rfl
    · split
      · exact len_modInstr _ _ _
      · split
        case _ st2 e heq2 =>
          exact (len_of_eq heq2 (len_dispatchBody recur k0 hrec _)).trans (len_modInstr _ _ _)
        case _ st2 heq2 =>
          exact (len_executeTail recur k0 hrec _).trans
            ((len_of_eq heq2 (len_dispatchBody recur k0 hrec _)).trans (len_modInstr _ _ _))

theorem len_execListBody (recur : Call → State → State × Option Err) (setAllow : Bool)
    (js : List Nat) (hrec : ∀ c s, (recur c s).1.instrs.length = s.instrs.length)
    (st : State) : (execListBody recur setAllow js st).1.instrs.length = st.instrs.length := by
  unfold execListBody
  cases js with
  | nil => rfl
  | cons j rest =>
    dsimp only
    have hJ : (if setAllow then
        modInstr st j fun x => { x with allow_insufficient := true } else st).instrs.length =
        st.instrs.length := by
      split
      · exact len_modInstr _ _ _
      · rfl
    split
    case _ st1 e heq => exact (len_of_eq heq (hrec _ _)).trans hJ
    case _ st1 heq => exact (hrec _ _).trans ((len_of_eq heq (hrec _ _)).trans hJ)

/-- No step of the resolver changes the number of instructions in the set. -/
theorem run_length (adj : Nat → Nat → Bool) (n : Nat) :
    ∀ (c : Call) (st : State), (run adj n c st).1.instrs.length = st.instrs.length := by
  induction n with
  | zero => intro c st; rfl
  | succ m ih =>
    intro c st
    cases c with
    | execute k0 => exact len_executeBody adj (run adj m) k0 (fun c s => ih c s) st
    | execList a js => exact len_execListBody (run adj m) a js (fun c s => ih c s) st
    | resolveInvasion k0 =>
      show (invasionBody (run adj m) k0 st).1.instrs.length = st.instrs.length
      unfold invasionBody
      split
      case _ stA e heq =>
        exact len_of_eq heq (len_invadeHp (run adj m) k0 (fun c s => ih c s) st)
      case _ stA heq =>
        exact (len_invadeMain k0 stA).trans
          (len_of_eq heq (len_invadeHp (run adj m) k0 (fun c s => ih c s) st))
    | resolveExpansion k0 => exact len_expansionBody (run adj m) k0 (fun c s => ih c s) st
    | resolveSkirmish k0 peers =>
      exact len_skirmishBody (run adj m) k0 peers (fun c s => ih c s) st

/-- The invariant "executed and no longer executing" is preserved by every
step of the resolver. -/
theorem Pk_run (adj : Nat → Nat → Bool) (n : Nat) {k : Nat} :
    ∀ (c : Call) (st : State), Pk k st → Pk k (run adj n c st).1 := by
  induction n with
  | zero => intro c st h; exact h
  | succ m ih =>
    intro c st h
    cases c with
    | execute k0 => exact Pk_executeBody adj (run adj m) k0 (fun c s => ih c s) h
    | execList a js => exact Pk_execListBody (run adj m) a js (fun c s => ih c s) h
    | resolveInvasion k0 =>
      show Pk k (invasionBody (run adj m) k0 st).1
      unfold invasionBody
      split
      case _ stA e heq =>
        exact Pk_of_eq heq (Pk_invadeHp (run adj m) k0 (fun c s => ih c s) h)
      case _ stA heq =>
        exact Pk_invadeMain k0 (Pk_of_eq heq (Pk_invadeHp (run adj m) k0 (fun c s => ih c s) h))
    | resolveExpansion k0 => exact Pk_expansionBody (run adj m) k0 (fun c s => ih c s) h
    | resolveSkirmish k0 peers =>
      exact Pk_skirmishBody (run adj m) k0 peers (fun c s => ih c s) h

/-- A successful execute leaves the executed instruction marked Executed and
no longer Executing — the follow-up loop of a broken cycle cannot undo either
flag. -/
theorem Pk_of_execute_ok (adj : Nat → Nat → Bool) (n : Nat) (st : State) (k : Nat)
    (h : (run adj n (.execute k) st).2 = none) : Pk k (run adj n (.execute k) st).1 := by
  cases n with
  | zero => exact absurd h (by simp [run])
  | succ m =>
    have h' : (executeBody adj (run adj m) k st).2 = none := h
    show Pk k (executeBody adj (run adj m) k st).1
    unfold executeBody at h' ⊢
    by_cases h1 : (getIdx st.instrs k).is_executing = true
    · rw [if_pos h1] at h'
      simp at h'
    · rw [if_neg h1] at h' ⊢
      by_cases h2 : (getIdx st.instrs k).is_executed = true
      · rw [if_pos h2] at h'
        simp at h'
      · rw [if_neg h2] at h' ⊢
        cases hv : assert_is_valid adj (modInstr st k fun x =>
            { x with is_executing := true }) k with
        | some e =>
          rw [hv] at h'
          simp at h'
        | none =>
          simp only [hv] at h' ⊢
          cases hd : dispatchBody (run adj m) k (modInstr st k fun x =>
              { x with is_executing := true }) with
          | mk st2 e2 =>
            cases e2 with
            | some e =>
              rw [hd] at h'
              simp at h'
            | none =>
              simp only [hd] at h' ⊢
              have hkr : k < st.instrs.length := by
                by_contra hk
                have hinstrs : (modInstr st k fun x =>
                    { x with is_executing := true }).instrs = st.instrs :=
                  setIdx_of_ge _ _ _ (Nat.le_of_not_lt hk)
                have hdef : getIdx (modInstr st k fun x =>
                    { x with is_executing := true }).instrs k = default := by
                  rw [hinstrs]
                  exact getIdx_of_ge _ _ (Nat.le_of_not_lt hk)
                have : dispatchBody (run adj m) k (modInstr st k fun x =>
                    { x with is_executing := true }) = (modInstr st k fun x =>
                    { x with is_executing := true }, some .invalidInstructionType) := by
                  unfold dispatchBody
                  rw [hdef]
                rw [this] at hd
                exact Option.noConfusion (congrArg Prod.snd hd)
              have hlen : st2.instrs.length = st.instrs.length := by
                have hl := len_dispatchBody (run adj m) k (fun c s => run_length adj m c s)
                  (modInstr st k fun x => { x with is_executing := true })
                rw [hd] at hl
                exact hl.trans (len_modInstr _ _ _)
              have hPk3 : Pk k (modInstr st2 k fun x =>
                  { x with is_executed := true, is_executing := false }) := by
                unfold Pk modInstr
                rw [getIdx_setIdx_self _ _ _ (by rw [hlen]; exact hkr)]
                exact ⟨rfl, rfl⟩
              unfold executeTail
              dsimp only
              split
              · exact Pk_run adj m _ _ hPk3
              · exact hPk3

/-- C7: for every Movement whose execute call completed successfully, a
subsequent execute call raises InstructionAlreadyExecuted and returns the
state — unit placement and territory ownership included — unchanged. -/
theorem C7_execute_idempotent (adj : Nat → Nat → Bool) (n m : Nat) (st : State) (k : Nat)
    (h : (run adj n (.execute k) st).2 = none) :
    run adj (m + 1) (.execute k) ((run adj n (.execute k) st).1) =
      ((run adj n (.execute k) st).1, some Err.instructionAlreadyExecuted) ∧
    ∀ t, ((run adj (m + 1) (.execute k) ((run adj n (.execute k) st).1)).1).world t =
      ((run adj n (.execute k) st).1).world t := by
  have hPk := Pk_of_execute_ok adj n st k h
  have hmain : run adj (m + 1) (.execute k) ((run adj n (.execute k) st).1) =
      ((run adj n (.execute k) st).1, some Err.instructionAlreadyExecuted) := by
    show executeBody adj (run adj m) k ((run adj n (.execute k) st).1) = _
    unfold executeBody
    rw [if_neg (by rw [hPk.2]; exact Bool.false_ne_true), if_pos hPk.1]
  exact ⟨hmain, fun t => by rw [hmain]⟩

/-- Witness for C7: a plain successful invasion (origin 9 troops, destination
5, requesting 8), then a second execute on the same instruction. -/
def c7st : State := ⟨invWorld 1 (some 2) 9 5 false, [invInstr 1 8]⟩

theorem C7_execute_idempotent_witness :
    (run adjAll 2 (.execute 0) c7st).2 = none ∧
    run adjAll 1 (.execute 0) ((run adjAll 2 (.execute 0) c7st).1) =
      ((run adjAll 2 (.execute 0) c7st).1, some Err.instructionAlreadyExecuted) :=
  ⟨by decide, (C7_execute_idempotent adjAll 2 0 c7st 0 (by decide)).1⟩

theorem C6_validation_no_mutation_witness :
    ((getIdx c6st.instrs 0).is_executing = false ∧
     (getIdx c6st.instrs 0).is_executed = false ∧
     (c6st.world (getIdx c6st.instrs 0).origin).owner ≠ some (getIdx c6st.instrs 0).issuer) ∧
    (((run adjAll 1 (.execute 0) c6st).2 = some Err.issuerDoesNotOwnTerritory ∨
      (run adjAll 1 (.execute 0) c6st).2 = some Err.insufficientUnits ∨
      (run adjAll 1 (.execute 0) c6st).2 = some Err.targetNotAdjacent) ∧
     ∀ t, ((run adjAll 1 (.execute 0) c6st).1).world t = c6st.world t) :=
  ⟨by decide,
   C6_validation_no_mutation adjAll 0 c6st 0 (by decide) (by decide) (Or.inl (by decide))⟩


/-- Reduction of the C1 execution to the non-recursive invasion core: the
guards pass, validation succeeds, and the singleton set has no
higher-priority movements, so execute reaches invadeMain directly. -/
theorem invScenario_to_invadeMain (p : Nat) (q : Option Nat) (O D R : Nat) (hasC : Bool)
    (hRO : R ≤ O) :
    invScenario p q O D hasC R =
      (match invadeMain 0 ⟨invWorld p q O D hasC, [invInstrSt p R 0 true false]⟩ with
       | (st2, some e) => (st2, some e)
       | (st2, none) => executeTail (run adjAll 1) 0 st2) := by
  have hmod : modInstr ⟨invWorld p q O D hasC, [invInstr p R]⟩ 0
      (fun x => { x with is_executing := true }) =
      ⟨invWorld p q O D hasC, [invInstrSt p R 0 true false]⟩ := rfl
  have hvalid : assert_is_valid adjAll
      ⟨invWorld p q O D hasC, [invInstrSt p R 0 true false]⟩ 0 = none := by
    unfold assert_is_valid
    rw [if_neg, if_neg, if_neg]
    · simp [adjAll]
    · have htr : troopsAt (invWorld p q O D hasC)
          (getIdx [invInstrSt p R 0 true false] 0).origin = O := by
        show (invWorld p q O D hasC 1).troops = O
        rw [invWorld_one]
      rw [htr]
      simp [invInstrSt, getIdx]
      omega
    · show ¬((invWorld p q O D hasC 1).owner ≠ some p)
      rw [invWorld_one]
      simp
  show executeBody adjAll (run adjAll 1) 0 ⟨invWorld p q O D hasC, [invInstr p R]⟩ = _
  unfold executeBody
  rw [hmod]
  simp only [getIdx, invInstr, Bool.false_eq_true, if_false]
  rw [hvalid]
  rfl

/-- The penalty phase of the C1 invasion: no mutual peer, shortfall not
allowed, origin holding O ≥ 2 troops — exactly two troops are removed from
the origin and both count as moved. -/
theorem invadePenalty_spec (p : Nat) (q : Option Nat) (O D R : Nat) (hasC : Bool) (hO : 2 ≤ O) :
    invadePenalty ⟨invWorld p q O D hasC, [invInstrSt p R 0 true false]⟩ 0 =
      (⟨setTroops (invWorld p q O D hasC) 1 (O - 2), [invInstrSt p R 2 true false]⟩, none) := by
  have htr1 : troopsAt (invWorld p q O D hasC) 1 = O := by
    show (invWorld p q O D hasC 1).troops = O
    rw [invWorld_one]
  have h1 : remove_one_troop (invWorld p q O D hasC) 1 false =
      (setTroops (invWorld p q O D hasC) 1 (O - 1), none) := by
    unfold remove_one_troop
    rw [htr1, if_neg (by omega)]
  have htr2 : troopsAt (setTroops (invWorld p q O D hasC) 1 (O - 1)) 1 = O - 1 :=
    troopsAt_setTroops_self _ _ _
  have h2 : remove_one_troop (setTroops (invWorld p q O D hasC) 1 (O - 1)) 1 false =
      (setTroops (invWorld p q O D hasC) 1 (O - 2), none) := by
    unfold remove_one_troop
    rw [htr2, if_neg (by omega), setTroops_setTroops_self]
    have : O - 1 - 1 = O - 2 := by omega
    rw [this]
  have hps1 : penaltyStep ⟨invWorld p q O D hasC, [invInstrSt p R 0 true false]⟩ 0 false =
      (⟨setTroops (invWorld p q O D hasC) 1 (O - 1), [invInstrSt p R 1 true false]⟩, none) := by
    unfold penaltyStep
    simp only [getIdx, invInstrSt]
    rw [h1]
    rfl
  have hps2 : penaltyStep ⟨setTroops (invWorld p q O D hasC) 1 (O - 1),
      [invInstrSt p R 1 true false]⟩ 0 false =
      (⟨setTroops (invWorld p q O D hasC) 1 (O - 2), [invInstrSt p R 2 true false]⟩, none) := by
    unfold penaltyStep
    simp only [getIdx, invInstrSt]
    rw [h2]
    rfl
  unfold invadePenalty penalty
  simp only [getIdx, invInstrSt] at hps1 hps2 ⊢
  rw [hps1]
  dsimp only
  rw [hps2]

/-- C1 (amended): for a Movement classified Invasion executed without
partial execution, with no unexecuted same-set instruction at its
destination and no mutual-invasion peer, issuer owning the origin (O troops),
destination adjacent (D troops), and requested R troops where 2 ≤ R ≤ O:
execution succeeds; the origin ends with O - R troops and keeps its owner;
if the requested troops exceed the penalty plus the destination's troops
(D < R - 2), the surviving R - 2 - D attackers end on the destination, owned
by the issuer; otherwise the destination ends with D - (R - 2) troops and
becomes neutral exactly when that is zero and it has no constructs. The
attacker's losses are min(R, P + min(R - P, D)) with P = 2 — which is the
claim's formula min(R, P + min(max(R-P,0), D)) restricted to R ≥ 2; for
R < 2 the claim fails (see the counterexample). -/
theorem C1_invasion_accounting (p : Nat) (q : Option Nat) (O D R : Nat) (hasC : Bool)
    (hR : 2 ≤ R) (hRO : R ≤ O) :
    (invScenario p q O D hasC R).2 = none ∧
    ((invScenario p q O D hasC R).1.world 1).owner = some p ∧
    ((invScenario p q O D hasC R).1.world 1).troops = O - R ∧
    (if D < R - 2 then
      ((invScenario p q O D hasC R).1.world 2).owner = some p ∧
      ((invScenario p q O D hasC R).1.world 2).troops = (R - 2) - D
    else
      ((invScenario p q O D hasC R).1.world 2).owner =
        (if D - (R - 2) = 0 ∧ hasC = false then none else q) ∧
      ((invScenario p q O D hasC R).1.world 2).troops = D - (R - 2)) ∧
    O - ((invScenario p q O D hasC R).1.world 1).troops -
      (if D < R - 2 then (R - 2) - D else 0) = min R (2 + min (R - 2) D) := by
  rw [invScenario_to_invadeMain p q O D R hasC hRO]
  unfold invadeMain
  rw [invadePenalty_spec p q O D R hasC (by omega)]
  dsimp only
  simp only [getIdx, invInstrSt]
  rw [tradeLoop_spec _ 1 2 (by omega) _ _]
  have ht1 : troopsAt (setTroops (invWorld p q O D hasC) 1 (O - 2)) 1 = O - 2 :=
    troopsAt_setTroops_self _ _ _
  have ht2 : troopsAt (setTroops (invWorld p q O D hasC) 1 (O - 2)) 2 = D := by
    rw [troopsAt_setTroops_ne _ _ _ _ (by omega)]
    show (invWorld p q O D hasC 2).troops = D
    rw [invWorld_two]
  rw [ht1, ht2]
  have htoNat : (((R : Nat) : Int) - 2).toNat = R - 2 := by omega
  rw [htoNat]
  have hmin : min (R - 2) (min (O - 2) D) = min (R - 2) D := by omega
  rw [hmin]
  dsimp only
  simp only [modInstr, setWorld, setIdx, getIdx]
  unfold invadeFinish
  simp only [getIdx]
  rw [setTroops_setTroops_self]
  by_cases hcase : D < R - 2
  · have hminD : (R - 2) ⊓ D = D := min_eq_right (by omega)
    rw [hminD]
    have htw1 : troopsAt (setTroops (setTroops (invWorld p q O D hasC) 1 (O - 2 - D)) 2
        (D - D)) 1 = O - 2 - D := by
      rw [troopsAt_setTroops_ne _ _ _ _ (by omega), troopsAt_setTroops_self]
    have htake : take_unit_count (setTroops (setTroops (invWorld p q O D hasC) 1
        (O - 2 - D)) 2 (D - D)) 1 ((R : Int) - (2 + (D : Int))) false =
        ((R - 2 - D : Nat), none) := by
      unfold take_unit_count
      rw [if_neg (by omega), if_neg (by omega), htw1, if_neg (by omega)]
      have hq : ((R : Int) - (2 + (D : Int))).toNat = R - 2 - D := by omega
      rw [hq]
    rw [htake]
    try dsimp only
    rw [if_pos (by omega : 0 < R - 2 - D)]
    have hOwn1 : (setTroops (setTroops (invWorld p q O D hasC) 1 (O - 2 - D)) 2
        (D - D) 1).owner = some p := by
      rw [owner_setTroops, owner_setTroops]
      show (invWorld p q O D hasC 1).owner = some p
      rw [invWorld_one]
    rw [hOwn1]
    have htA : troopsAt (setOwner (setTroops (setTroops (invWorld p q O D hasC) 1
        (O - 2 - D)) 2 (D - D)) 2 (some p)) 1 = O - 2 - D := by
      rw [troopsAt_setOwner, htw1]
    rw [htA]
    have hOR : O - 2 - D - (R - 2 - D) = O - R := by omega
    rw [hOR]
    have htB : troopsAt (setTroops (setOwner (setTroops (setTroops (invWorld p q O D hasC) 1
        (O - 2 - D)) 2 (D - D)) 2 (some p)) 1 (O - R)) 2 = D - D := by
      rw [troopsAt_setTroops_ne _ _ _ _ (by omega), troopsAt_setOwner, troopsAt_setTroops_self]
    rw [htB]
    have hDD : D - D + (R - 2 - D) = R - 2 - D := by omega
    rw [hDD]
    unfold executeTail
    simp only [modInstr, setWorld, setIdx, getIdx]
    simp only [Bool.false_eq_true, if_false]
    rw [if_pos hcase, if_pos hcase]
    refine ⟨trivial, ?_, ?_, ⟨?_, ?_⟩, ?_⟩
    · rw [owner_setTroops, owner_setTroops, setOwner_apply_ne _ _ _ _ (by omega)]
      rw [hOwn1]
    · show troopsAt (setTroops (setTroops (setOwner (setTroops (setTroops
        (invWorld p q O D hasC) 1 (O - 2 - D)) 2 (D - D)) 2 (some p)) 1 (O - R)) 2
        (R - 2 - D)) 1 = O - R
      rw [troopsAt_setTroops_ne _ _ _ _ (by omega), troopsAt_setTroops_self]
    · rw [owner_setTroops, owner_setTroops, setOwner_apply_self]
    · show troopsAt (setTroops (setTroops (setOwner (setTroops (setTroops
        (invWorld p q O D hasC) 1 (O - 2 - D)) 2 (D - D)) 2 (some p)) 1 (O - R)) 2
        (R - 2 - D)) 2 = R - 2 - D
      rw [troopsAt_setTroops_self]
    · show O - troopsAt (setTroops (setTroops (setOwner (setTroops (setTroops
        (invWorld p q O D hasC) 1 (O - 2 - D)) 2 (D - D)) 2 (some p)) 1 (O - R)) 2
        (R - 2 - D)) 1 - (R - 2 - D) = min R (2 + D)
      rw [troopsAt_setTroops_ne _ _ _ _ (by omega), troopsAt_setTroops_self]
      have : min R (2 + D) = 2 + D := min_eq_right (by omega)
      rw [this]
      omega
  · have hminR : (R - 2) ⊓ D = R - 2 := min_eq_left (by omega)
    rw [hminR]
    have hOR2 : O - 2 - (R - 2) = O - R := by omega
    rw [hOR2]
    rw [if_neg hcase, if_neg hcase]
    have htake0 : take_unit_count (setTroops (setTroops (invWorld p q O D hasC) 1 (O - R)) 2
        (D - (R - 2))) 1 ((R : Int) - (2 + ((R - 2 : Nat) : Int))) false = (0, none) := by
      unfold take_unit_count
      rw [if_neg (by omega), if_pos (by omega)]
    rw [htake0]
    try dsimp only
    rw [if_neg (by omega : ¬(0 < 0))]
    have htw2 : troopsAt (setTroops (setTroops (invWorld p q O D hasC) 1 (O - R)) 2
        (D - (R - 2))) 2 = D - (R - 2) := troopsAt_setTroops_self _ _ _
    have hhc : (setTroops (setTroops (invWorld p q O D hasC) 1 (O - R)) 2
        (D - (R - 2)) 2).hasConstructs = hasC := by
      rw [hasConstructs_setTroops, hasConstructs_setTroops]
      show (invWorld p q O D hasC 2).hasConstructs = hasC
      rw [invWorld_two]
    have hown2 : (setTroops (setTroops (invWorld p q O D hasC) 1 (O - R)) 2
        (D - (R - 2)) 2).owner = q := by
      rw [owner_setTroops, owner_setTroops]
      show (invWorld p q O D hasC 2).owner = q
      rw [invWorld_two]
    have hie : isEmpty (setTroops (setTroops (invWorld p q O D hasC) 1 (O - R)) 2
        (D - (R - 2))) 2 = ((D - (R - 2) == 0) && !hasC) := by
      unfold isEmpty
      rw [hhc]
      show ((troopsAt (setTroops (setTroops (invWorld p q O D hasC) 1 (O - R)) 2
        (D - (R - 2))) 2) == 0 && !hasC) = _
      rw [htw2]
    by_cases hempty : D - (R - 2) = 0 ∧ hasC = false
    · have hieT : isEmpty (setTroops (setTroops (invWorld p q O D hasC) 1 (O - R)) 2
          (D - (R - 2))) 2 = true := by
        rw [hie, hempty.1, hempty.2]
        rfl
      rw [if_pos hieT]
      rw [if_pos hempty]
      unfold executeTail
      simp only [modInstr, setWorld, setIdx, getIdx]
      simp only [Bool.false_eq_true, if_false]
      refine ⟨trivial, ?_, ?_, ⟨?_, ?_⟩, ?_⟩
      · rw [show (setOwner (setTroops (setTroops (invWorld p q O D hasC) 1 (O - R)) 2
          (D - (R - 2))) 2 none 1).owner = ((setTroops (setTroops (invWorld p q O D hasC) 1
          (O - R)) 2 (D - (R - 2))) 1).owner from by rw [setOwner_apply_ne _ _ _ _ (by omega)]]
        rw [owner_setTroops, owner_setTroops]
        show (invWorld p q O D hasC 1).owner = some p
        rw [invWorld_one]
      · show troopsAt (setOwner (setTroops (setTroops (invWorld p q O D hasC) 1 (O - R)) 2
          (D - (R - 2))) 2 none) 1 = O - R
        rw [troopsAt_setOwner, troopsAt_setTroops_ne _ _ _ _ (by omega),
          troopsAt_setTroops_self]
      · show (setOwner (setTroops (setTroops (invWorld p q O D hasC) 1 (O - R)) 2
          (D - (R - 2))) 2 none 2).owner = none
        rw [setOwner_apply_self]
      · show troopsAt (setOwner (setTroops (setTroops (invWorld p q O D hasC) 1 (O - R)) 2
          (D - (R - 2))) 2 none) 2 = D - (R - 2)
        rw [troopsAt_setOwner, troopsAt_setTroops_self]
      · show O - troopsAt (setOwner (setTroops (setTroops (invWorld p q O D hasC) 1 (O - R)) 2
          (D - (R - 2))) 2 none) 1 - 0 = min R (2 + (R - 2))
        rw [troopsAt_setOwner, troopsAt_setTroops_ne _ _ _ _ (by omega),
          troopsAt_setTroops_self]
        have h2R : 2 + (R - 2) = R := by omega
        rw [h2R, min_self]
        omega
    · have hieF : isEmpty (setTroops (setTroops (invWorld p q O D hasC) 1 (O - R)) 2
          (D - (R - 2))) 2 = false := by
        rw [hie]
        by_cases hD0 : D - (R - 2) = 0
        · have hct : hasC = true := by
            cases hC : hasC
            · exact absurd ⟨hD0, hC⟩ hempty
            · rfl
          rw [hct]
          simp
        · simp [hD0]
      rw [if_neg (by rw [hieF]; exact Bool.false_ne_true)]
      rw [if_neg hempty]
      unfold executeTail
      simp only [modInstr, setWorld, setIdx, getIdx]
      simp only [Bool.false_eq_true, if_false]
      refine ⟨trivial, ?_, ?_, ⟨?_, ?_⟩, ?_⟩
      · rw [owner_setTroops, owner_setTroops]
        show (invWorld p q O D hasC 1).owner = some p
        rw [invWorld_one]
      · show troopsAt (setTroops (setTroops (invWorld p q O D hasC) 1 (O - R)) 2
          (D - (R - 2))) 1 = O - R
        rw [troopsAt_setTroops_ne _ _ _ _ (by omega), troopsAt_setTroops_self]
      · exact hown2
      · exact htw2
      · show O - troopsAt (setTroops (setTroops (invWorld p q O D hasC) 1 (O - R)) 2
          (D - (R - 2))) 1 - 0 = min R (2 + (R - 2))
        rw [troopsAt_setTroops_ne _ _ _ _ (by omega), troopsAt_setTroops_self]
        have h2R : 2 + (R - 2) = R := by omega
        rw [h2R, min_self]
        omega

/-- Witness for C1 (amended) at p = 1, q = player 2, O = 9, D = 5, R = 8. -/
theorem C1_invasion_accounting_witness :
    ((2 ≤ 8 ∧ 8 ≤ 9) ∧
      ((invScenario 1 (some 2) 9 5 false 8).2 = none ∧
      ((invScenario 1 (some 2) 9 5 false 8).1.world 1).owner = some 1 ∧
      ((invScenario 1 (some 2) 9 5 false 8).1.world 1).troops = 9 - 8 ∧
      (if 5 < 8 - 2 then
        ((invScenario 1 (some 2) 9 5 false 8).1.world 2).owner = some 1 ∧
        ((invScenario 1 (some 2) 9 5 false 8).1.world 2).troops = (8 - 2) - 5
      else
        ((invScenario 1 (some 2) 9 5 false 8).1.world 2).owner =
          (if 5 - (8 - 2) = 0 ∧ false = false then none else some 2) ∧
        ((invScenario 1 (some 2) 9 5 false 8).1.world 2).troops = 5 - (8 - 2)) ∧
      9 - ((invScenario 1 (some 2) 9 5 false 8).1.world 1).troops -
        (if 5 < 8 - 2 then (8 - 2) - 5 else 0) = min 8 (2 + min (8 - 2) 5))) :=
  ⟨by decide, C1_invasion_accounting 1 (some 2) 9 5 8 false (by decide) (by decide)⟩

theorem getIdx_mem (l : List Movement) (j : Nat) (h : j < l.length) : getIdx l j ∈ l := by
  induction l generalizing j with
  | nil => simp at h
  | cons a t ih =>
    cases j with
    | zero => exact List.mem_cons_self _ _
    | succ n => exact List.mem_cons_of_mem _ (ih n (by simpa using h))

theorem mem_getIdx (l : List Movement) (x : Movement) (h : x ∈ l) :
    ∃ j, j < l.length ∧ getIdx l j = x := by
  induction l with
  | nil => simp at h
  | cons a t ih =>
    rcases List.mem_cons.mp h with rfl | hx
    · exact ⟨0, by simp, rfl⟩
    · rcases ih hx with ⟨j, hj, hg⟩
      exact ⟨j + 1, by simpa using Nat.succ_lt_succ hj, hg⟩

theorem forall_getIdx_iff (l : List Movement) (P : Movement → Prop) :
    (∀ j, j < l.length → P (getIdx l j)) ↔ ∀ x ∈ l, P x := by
  constructor
  · intro h x hx
    obtain ⟨j, hj, rfl⟩ := mem_getIdx l x hx
    exact h j hj
  · intro h j hj
    exact h _ (getIdx_mem l j hj)

theorem mem_idxFilter (l : List Movement) (p : Movement → Bool) (j : Nat) :
    j ∈ idxFilter l p ↔ j < l.length ∧ p (getIdx l j) = true := by
  unfold idxFilter
  simp [List.mem_filter, List.mem_range]

theorem idxFilter_isEmpty_iff (l : List Movement) (p : Movement → Bool) :
    (idxFilter l p).isEmpty = true ↔ ∀ x ∈ l, p x = false := by
  rw [← forall_getIdx_iff]
  unfold idxFilter
  rw [List.isEmpty_iff, List.filter_eq_nil_iff]
  constructor
  · intro h j hj
    have := h j (List.mem_range.mpr hj)
    simpa using this
  · intro h j hj
    simp only [Bool.not_eq_true]
    exact h j (List.mem_range.mp hj)

theorem idxFilter_nodup (l : List Movement) (p : Movement → Bool) :
    (idxFilter l p).Nodup :=
  (List.nodup_range _).filter _

theorem idxFilter_lt (l : List Movement) (p : Movement → Bool) (j : Nat)
    (h : j ∈ idxFilter l p) : j < l.length :=
  ((mem_idxFilter l p j).mp h).1

theorem foldl_setIdx_not_mem (f : Nat → Movement → Movement) (js : List Nat)
    (l : List Movement) (j : Nat) (hj : j ∉ js) :
    getIdx (js.foldl (fun acc i => setIdx acc i (f i (getIdx acc i))) l) j = getIdx l j := by
  induction js generalizing l with
  | nil => rfl
  | cons i rest ih =>
    simp only [List.foldl_cons]
    rw [ih _ (fun h => hj (List.mem_cons_of_mem _ h))]
    exact getIdx_setIdx_ne _ _ _ _ (fun h => hj (h ▸ List.mem_cons_self _ _))

theorem foldl_setIdx_mem (f : Nat → Movement → Movement) (js : List Nat)
    (l : List Movement) (j : Nat) (hnd : js.Nodup) (hj : j ∈ js) (hlen : j < l.length) :
    getIdx (js.foldl (fun acc i => setIdx acc i (f i (getIdx acc i))) l) j =
      f j (getIdx l j) := by
  induction js generalizing l with
  | nil => simp at hj
  | cons i rest ih =>
    simp only [List.foldl_cons]
    rcases List.mem_cons.mp hj with rfl | hmem
    · rw [foldl_setIdx_not_mem _ _ _ _ (List.nodup_cons.mp hnd).1]
      exact getIdx_setIdx_self _ _ _ hlen
    · have hij : i ≠ j := by
        rintro rfl
        exact (List.nodup_cons.mp hnd).1 hmem
      rw [ih _ (List.nodup_cons.mp hnd).2 hmem (by rw [setIdx_length]; exact hlen)]
      rw [getIdx_setIdx_ne _ _ _ _ hij]

/-- C3 amended: a Movement whose issuer owns its destination when it is added
is classified DISTRIBUTION at that moment; but a pre-existing instruction's
classification is overwritten to SKIRMISH whenever the new arrival triggers
the skirmish branch — its issuer does not own the destination and some
already-present instruction targets the same destination with a different,
non-owner issuer — and the pre-existing instruction also targets that
destination; in every other case pre-existing classifications are kept. -/
theorem C3_amended (owner : Nat → Option Nat) (instrs : List Movement) (m : Movement)
    (j : Nat) (hj : j < instrs.length) :
    ((some m.issuer = owner m.destination) →
      (getIdx (add_instruction owner instrs m) instrs.length).instruction_type =
        some InstructionType.DISTRIBUTION) ∧
    (getIdx (add_instruction owner instrs m) j).instruction_type =
      (if ¬(some m.issuer = owner m.destination) ∧
          (∃ x ∈ instrs, x.destination = m.destination ∧ x.issuer ≠ m.issuer ∧
            ¬(some x.issuer = owner x.destination)) ∧
          (getIdx instrs j).destination = m.destination
       then some InstructionType.SKIRMISH
       else (getIdx instrs j).instruction_type) := by
  have hkL : instrs.length < (instrs ++ [m]).length := by simp
  have hjL : j < (instrs ++ [m]).length := by
    simp only [List.length_append, List.length_cons, List.length_nil]
    omega
  have hgk : getIdx (instrs ++ [m]) instrs.length = m := getIdx_append_self _ _
  have hgj : getIdx (instrs ++ [m]) j = getIdx instrs j := getIdx_append_lt _ _ _ hj
  have hjk : j ≠ instrs.length := by omega
  unfold add_instruction set_movement_type
  rw [hgk]
  by_cases hA : some m.issuer = owner m.destination
  · rw [if_pos hA]
    refine ⟨fun _ => ?_, ?_⟩
    · rw [getIdx_setIdx_self _ _ _ hkL]
    · rw [getIdx_setIdx_ne _ _ _ _ (Ne.symm hjk), hgj,
        if_neg (fun hcon => hcon.1 hA)]
  · rw [if_neg hA]
    have hEx : ¬((idxFilter (instrs ++ [m]) fun x =>
        x.destination == m.destination && x.issuer != m.issuer &&
          !(some x.issuer == owner x.destination)).isEmpty = true) ↔
        (∃ x ∈ instrs, x.destination = m.destination ∧ x.issuer ≠ m.issuer ∧
          ¬(some x.issuer = owner x.destination)) := by
      rw [idxFilter_isEmpty_iff]
      constructor
      · intro h
        push_neg at h
        obtain ⟨x, hx, hpx⟩ := h
        have hpx' : x.destination = m.destination ∧ ¬x.issuer = m.issuer ∧
            ¬some x.issuer = owner x.destination := by
          simpa using hpx
        rcases List.mem_append.mp hx with hx' | hx'
        · exact ⟨x, hx', hpx'.1, hpx'.2.1, hpx'.2.2⟩
        · have hxm : x = m := by simpa using hx'
          exact absurd (by rw [hxm]) hpx'.2.1
      · rintro ⟨x, hx, h1, h2, h3⟩ h
        have := h x (List.mem_append.mpr (Or.inl hx))
        rw [show (x.destination == m.destination) = true from beq_iff_eq.mpr h1] at this
        rw [show (x.issuer != m.issuer) = true from bne_iff_ne.mpr h2] at this
        rw [show (some x.issuer == owner x.destination) = false from
          beq_eq_false_iff_ne.mpr h3] at this
        simp at this
    by_cases hB : ∃ x ∈ instrs, x.destination = m.destination ∧ x.issuer ≠ m.issuer ∧
        ¬(some x.issuer = owner x.destination)
    · have hIE : (idxFilter (instrs ++ [m]) fun x =>
          x.destination == m.destination && x.issuer != m.issuer &&
            !(some x.issuer == owner x.destination)).isEmpty = false := by
        cases h : (idxFilter (instrs ++ [m]) fun x =>
            x.destination == m.destination && x.issuer != m.issuer &&
              !(some x.issuer == owner x.destination)).isEmpty with
        | false => rfl
        | true => exact absurd h (hEx.mpr hB)
      rw [if_pos (by rw [hIE]; rfl)]
      dsimp only
      refine ⟨fun h => absurd h hA, ?_⟩
      by_cases hdest : (getIdx instrs j).destination = m.destination
      · have hmem : j ∈ idxFilter (instrs ++ [m]) fun x =>
            x.destination == m.destination := by
          rw [mem_idxFilter]
          exact ⟨hjL, by rw [hgj]; exact beq_iff_eq.mpr hdest⟩
        rw [foldl_setIdx_mem _ _ _ _ (idxFilter_nodup _ _) hmem hjL]
        rw [if_pos ⟨hA, hB, hdest⟩]
        rfl
      · have hnmem : j ∉ idxFilter (instrs ++ [m]) fun x =>
            x.destination == m.destination := by
          rw [mem_idxFilter]
          rintro ⟨-, hc⟩
          rw [hgj] at hc
          exact hdest (beq_iff_eq.mp hc)
        rw [foldl_setIdx_not_mem _ _ _ _ hnmem, hgj]
        rw [if_neg (fun hcon => hdest hcon.2.2)]
    · have hIE : (idxFilter (instrs ++ [m]) fun x =>
          x.destination == m.destination && x.issuer != m.issuer &&
            !(some x.issuer == owner x.destination)).isEmpty = true := by
        cases h : (idxFilter (instrs ++ [m]) fun x =>
            x.destination == m.destination && x.issuer != m.issuer &&
              !(some x.issuer == owner x.destination)).isEmpty with
        | true => rfl
        | false => exact absurd (hEx.mpr) (by
            intro hf
            exact hB (hEx.mp (by rw [h]; simp)))
      rw [if_neg (by rw [hIE]; simp)]
      by_cases hC : owner m.destination = none
      · rw [if_pos hC]
        refine ⟨fun h => absurd h hA, ?_⟩
        rw [getIdx_setIdx_ne _ _ _ _ (Ne.symm hjk), hgj, if_neg (fun hcon => hB hcon.2.1)]
      · rw [if_neg hC]
        dsimp only
        refine ⟨fun h => absurd h hA, ?_⟩
        cases hfl : (idxFilter (setIdx (instrs ++ [m]) instrs.length
            { m with instruction_type := some InstructionType.INVASION }) fun x =>
            some x.issuer == owner m.destination && x.destination == m.origin).head? with
        | none =>
          rw [getIdx_setIdx_ne _ _ _ _ (Ne.symm hjk), hgj, if_neg (fun hcon => hB hcon.2.1)]
        | some mi =>
          have hmemI : mi ∈ idxFilter (setIdx (instrs ++ [m]) instrs.length
              { m with instruction_type := some InstructionType.INVASION }) fun x =>
              some x.issuer == owner m.destination && x.destination == m.origin := by
            cases hl : idxFilter (setIdx (instrs ++ [m]) instrs.length
                { m with instruction_type := some InstructionType.INVASION }) fun x =>
                some x.issuer == owner m.destination && x.destination == m.origin with
            | nil => rw [hl] at hfl; simp at hfl
            | cons a t =>
              rw [hl] at hfl
              simp only [List.head?] at hfl
              exact (Option.some.injEq _ _ ▸ hfl : a = mi) ▸ List.mem_cons_self a t
          have hmik : mi ≠ instrs.length := by
            intro hc
            subst hc
            rw [mem_idxFilter] at hmemI
            rw [getIdx_setIdx_self _ _ _ hkL] at hmemI
            have := hmemI.2
            simp only [Bool.and_eq_true, beq_iff_eq] at this
            exact hA this.1
          by_cases hjm : j = mi
          · subst hjm
            rw [getIdx_setIdx_self]
            · show (getIdx (setIdx (setIdx (instrs ++ [m]) instrs.length
                { m with instruction_type := some InstructionType.INVASION }) instrs.length
                _) j).instruction_type = _
              rw [getIdx_setIdx_ne _ _ _ _ (Ne.symm hjk),
                getIdx_setIdx_ne _ _ _ _ (Ne.symm hjk), hgj, if_neg (fun hcon => hB hcon.2.1)]
            · rw [setIdx_length, setIdx_length]
              exact hjL
          · rw [getIdx_setIdx_ne _ _ _ _ (Ne.symm hjm),
              getIdx_setIdx_ne _ _ _ _ (Ne.symm hjk),
              getIdx_setIdx_ne _ _ _ _ (Ne.symm hjk), hgj, if_neg (fun hcon => hB hcon.2.1)]

/-! ## C3 concrete scenario: a Distribution retagged to Skirmish -/

def c3owner : Nat → Option Nat := fun t => if t = 2 then some 10 else none

def c3d : Movement := { issuer := 10, origin := 9, destination := 2 }
def c3a : Movement := { issuer := 11, origin := 3, destination := 2 }
def c3b : Movement := { issuer := 12, origin := 4, destination := 2 }

def c3two : List Movement :=
  add_instruction c3owner (add_instruction c3owner [] c3d) c3a

def c3three : List Movement := add_instruction c3owner c3two c3b

/-- C3 counterexample: player 10 owns territory 2 and moves troops into it, so
that Movement is classified DISTRIBUTION when added (and stays so when player
11 adds an invasion of territory 2); but when player 12 adds a second foreign
movement into territory 2, the skirmish branch retags every movement aimed at
territory 2 — including the owner's DISTRIBUTION, whose classification becomes
SKIRMISH. Classifier precedence protects a Distribution only at its own
classification time, not against later re-tagging. -/
theorem C3_counterexample :
    some c3d.issuer = c3owner c3d.destination ∧
    (getIdx c3two 0).instruction_type = some InstructionType.DISTRIBUTION ∧
    c3b.destination = c3d.destination ∧ c3b.issuer ≠ c3d.issuer ∧
    (getIdx c3three 0).instruction_type = some InstructionType.SKIRMISH := by
  decide

/-- Witness: the amended C3 theorem applied to the concrete scenario above,
at the pre-existing index 0. -/
theorem C3_amended_witness :
    (0 < c3two.length) ∧
    (((some c3b.issuer = c3owner c3b.destination) →
      (getIdx (add_instruction c3owner c3two c3b) c3two.length).instruction_type =
        some InstructionType.DISTRIBUTION) ∧
    (getIdx (add_instruction c3owner c3two c3b) 0).instruction_type =
      (if ¬(some c3b.issuer = c3owner c3b.destination) ∧
          (∃ x ∈ c3two, x.destination = c3b.destination ∧ x.issuer ≠ c3b.issuer ∧
            ¬(some x.issuer = c3owner x.destination)) ∧
          (getIdx c3two 0).destination = c3b.destination
       then some InstructionType.SKIRMISH
       else (getIdx c3two 0).instruction_type)) :=
  ⟨by decide, C3_amended c3owner c3two c3b 0 (by decide)⟩

/-! ## C4: the MOVEMENT/BATTLE split of Turn.register -/

def c4owner : Nat → Option Nat := fun t => if t = 1 then some 7 else none

def c4i : Movement := { issuer := 7, origin := 1, destination := 2 }

/-- C4 counterexample: player 7 owns the origin but the destination is neutral,
an expansion, which per the claim belongs to the BATTLE phase; yet
Turn.register places it in the MOVEMENT phase, because the registration
predicate also admits any movement whose origin or destination has no owner. -/
theorem C4_counterexample :
    c4owner c4i.origin = some c4i.issuer ∧ c4owner c4i.destination = none ∧
    (register_phases c4owner [c4i]).1 = [c4i] ∧
    (register_phases c4owner [c4i]).2 = [] := by
  decide

/-- C4 amended: a Movement is assigned to the MOVEMENT phase exactly when its
origin is neutral, or its destination is neutral, or the issuer owns the origin
and origin and destination have the same owner; all other movements go to the
BATTLE phase. -/
theorem C4_amended (owner : Nat → Option Nat) (instrs : List Movement) (i : Movement) :
    (i ∈ (register_phases owner instrs).1 ↔
      i ∈ instrs ∧ (owner i.origin = none ∨ owner i.destination = none ∨
        (some i.issuer = owner i.origin ∧ owner i.origin = owner i.destination))) ∧
    (i ∈ (register_phases owner instrs).2 ↔
      i ∈ instrs ∧ ¬(owner i.origin = none ∨ owner i.destination = none ∨
        (some i.issuer = owner i.origin ∧ owner i.origin = owner i.destination))) := by
  unfold register_phases movement_phase_pred
  simp [List.mem_filter]
  exact ⟨fun _ => by tauto, fun _ => by tauto⟩

/-! ## C5: the placement test of Turn.register_battle_phase -/

def c5i : Movement := { issuer := 1, origin := 5, destination := 5 }

/-- C5 counterexample: a movement from territory 5 to territory 5 is alone in
the pending list, so no OTHER pending instruction by the same player targets
its origin and the claim requires it to be placed; but the placement test
ranges over the whole pending list including the instruction itself, the
self-loop fails it, the first pass places nothing, and battle-phase
registration fails with InstructionSetNotConstructible. -/
theorem C5_counterexample :
    (¬∃ x ∈ [c5i], x ≠ c5i ∧ x.issuer = c5i.issuer ∧ x.destination = c5i.origin) ∧
    battle_placed [c5i] c5i = false ∧
    (battle_pass false [c5i]).1 = [] ∧
    (register_battle_phase 2 false [c5i]).2 = some Err.instructionSetNotConstructible := by
  decide

/-- C5 amended: in the first BATTLE pass, a pending instruction is placed into
the current set exactly when no pending instruction AT ALL — the instruction
itself included — has the same issuer and a destination equal to its origin;
otherwise it is deferred to a later pass. -/
theorem C5_amended (pending : List Movement) (i : Movement) :
    (i ∈ (battle_pass false pending).1 ↔
      i ∈ pending ∧ ¬∃ x ∈ pending, x.issuer = i.issuer ∧ x.destination = i.origin) ∧
    (i ∈ (battle_pass false pending).2 ↔
      i ∈ pending ∧ ∃ x ∈ pending, x.issuer = i.issuer ∧ x.destination = i.origin) := by
  unfold battle_pass battle_placed
  simp [List.mem_filter, List.any_eq_true]

/-! ## The unit-level world model (gd/world.py)

Claims C8-C10 are about `Territory.take_unit`, `Territory.remove_unit`,
`Unit.move` and `Unit.remove`, which manipulate individual Unit objects and
the back-reference `Unit.territory`. The mechanics-level model above sees
troops only as counts, so these operations get their own embedding: a world
is a registry of units (each with an id, a variant and an optional territory
back-reference) and of territories (each with an id, an owner, the Python
list `units` of unit ids, and constructs). -/

namespace WorldModel

inductive Variant where
  | troop
  | cavalry
  | general
deriving DecidableEq

structure WUnit where
  uid : Nat
  variant : Variant
  territory : Option Nat
deriving DecidableEq

structure WTerr where
  tid : Nat
  owner : Option Nat
  units : List Nat
  constructs : List Nat
deriving DecidableEq

structure WW where
  units : List WUnit
  terrs : List WTerr
deriving DecidableEq

/-- Look a unit up by id (Python: the object identity of a Unit). -/
def findUnit (w : WW) (uid : Nat) : Option WUnit :=
  w.units.find? fun u => u.uid == uid

/-- `Territory.all cls` (gd/world.py:81-83): the sub-list of the territory's
units having the requested variant, in list order. -/
def all (w : WW) (t : WTerr) (v : Variant) : List Nat :=
  t.units.filter fun uid =>
    match findUnit w uid with
    | some u => u.variant == v
    | none => false

/-- Python's `l[:amount]` for a possibly negative `amount`: a non-negative
amount takes that many elements from the front, a negative amount drops that
many elements from the back. -/
def pySlice (l : List Nat) (amount : Int) : List Nat :=
  if 0 ≤ amount then l.take amount.toNat
  else l.take ((l.length : Int) + amount).toNat

/-- What `take_unit` returns on success: Python's `[]`, `None`,
`available[0]` or `available[:amount]`. -/
inductive TakeRes where
  | nothing
  | one (uid : Nat)
  | many (uids : List Nat)
deriving DecidableEq

/-- The final `return available[:amount] if amount > 1 else available[0]`
of `take_unit` (gd/world.py:109). -/
def takeRet (available : List Nat) (amount : Int) : TakeRes :=
  if amount > 1 then .many (pySlice available amount)
  else .one (available.headD 0)

/-- `Territory.take_unit` (gd/world.py:86-109), with the world threaded
through explicitly: a negative amount raises ValueError; zero returns the
empty list; otherwise, when more is requested than available, the call
raises InsufficientUnitsException unless the shortfall flag is set, in which
case it returns None on an empty pool or clamps the amount to the pool size;
finally it returns the slice (or single unit). No branch writes to the
world. -/
def take_unit (w : WW) (t : WTerr) (v : Variant) (amount : Int) (allow : Bool) :
    WW × Option Err × Option TakeRes :=
  if amount < 0 then (w, some .valueError, none)
  else if amount = 0 then (w, none, some (.many []))
  else
    let available := all w t v
    if amount > (available.length : Int) then
      if !allow then (w, some .insufficientUnits, none)
      else if available.isEmpty then (w, none, some .nothing)
      else (w, none, some (takeRet available (available.length : Int)))
    else (w, none, some (takeRet available amount))

/-- `self.units.remove(unit)` on the territory with id `tid`: erase the
first occurrence of the unit id from that territory's list. -/
def removeFromTerr (w : WW) (tid : Nat) (uid : Nat) : WW :=
  { w with terrs := w.terrs.map fun t =>
      if t.tid == tid then { t with units := t.units.erase uid } else t }

/-- `territory.units.append(self)` on the territory with id `tid`. -/
def appendToTerr (w : WW) (tid : Nat) (uid : Nat) : WW :=
  { w with terrs := w.terrs.map fun t =>
      if t.tid == tid then { t with units := t.units ++ [uid] } else t }

/-- `self.territory = ...` on the unit with id `uid`. -/
def setUnitTerr (w : WW) (uid : Nat) (tid : Option Nat) : WW :=
  { w with units := w.units.map fun u =>
      if u.uid == uid then { u with territory := tid } else u }

/-- `Territory.remove_unit` (gd/world.py:111-121): there is NO negative-amount
check; when more is requested than available the call raises
InsufficientUnitsException unless the shortfall flag is set (clamping the
amount); then every unit of `available[:amount]` is removed from the
territory's list. The removed units' `territory` back-references are not
touched. -/
def remove_unit (w : WW) (t : WTerr) (v : Variant) (amount : Int) (allow : Bool) :
    WW × Option Err :=
  let available := all w t v
  if amount > (available.length : Int) then
    if !allow then (w, some .insufficientUnits)
    else ((pySlice available ((available.length : Int))).foldl
      (fun acc uid => removeFromTerr acc t.tid uid) w, none)
  else ((pySlice available amount).foldl
    (fun acc uid => removeFromTerr acc t.tid uid) w, none)

/-- `Unit.move` (gd/world.py:178-189): remove the unit from its current
territory's list if it has one, then set the back-reference to the target
and append the unit to the target's list. -/
def unitMove (w : WW) (uid : Nat) (dest : Nat) : WW :=
  let w1 := match findUnit w uid with
    | some u =>
      match u.territory with
      | some tid => removeFromTerr w tid uid
      | none => w
    | none => w
  appendToTerr (setUnitTerr w1 uid (some dest)) dest uid

/-- `Unit.remove` (gd/world.py:191-194): remove the unit from its territory's
list if it has one. The unit's own `territory` back-reference is NOT
cleared. -/
def unitRemove (w : WW) (uid : Nat) : WW :=
  match findUnit w uid with
  | some u =>
    match u.territory with
    | some tid => removeFromTerr w tid uid
    | none => w
  | none => w

/-- The back-reference invariant of C9: a unit's `territory` field points at
a territory exactly when the unit is a member of that territory's list. -/
def Inv (w : WW) : Prop :=
  ∀ u ∈ w.units, ∀ t ∈ w.terrs, (u.territory = some t.tid ↔ u.uid ∈ t.units)

/-- The forward half that removal operations do preserve: list membership
still implies a correct back-reference. -/
def RevInv (w : WW) : Prop :=
  ∀ u ∈ w.units, ∀ t ∈ w.terrs, u.uid ∈ t.units → u.territory = some t.tid

/-- Well-formedness of the registry: unit ids and territory ids are unique,
and no territory lists a unit twice. -/
def WF (w : WW) : Prop :=
  (w.units.map WUnit.uid).Nodup ∧ (w.terrs.map WTerr.tid).Nodup ∧
    ∀ t ∈ w.terrs, t.units.Nodup

end WorldModel

namespace WorldModel

instance (w : WW) : Decidable (Inv w) :=
  inferInstanceAs (Decidable
    (∀ u ∈ w.units, ∀ t ∈ w.terrs, (u.territory = some t.tid ↔ u.uid ∈ t.units)))

instance (w : WW) : Decidable (RevInv w) :=
  inferInstanceAs (Decidable
    (∀ u ∈ w.units, ∀ t ∈ w.terrs, u.uid ∈ t.units → u.territory = some t.tid))

instance (w : WW) : Decidable (WF w) :=
  inferInstanceAs (Decidable ((w.units.map WUnit.uid).Nodup ∧
    (w.terrs.map WTerr.tid).Nodup ∧ ∀ t ∈ w.terrs, t.units.Nodup))

/-! ### C8: negative amounts and shortfalls -/

def c8u1 : WUnit := ⟨1, .troop, some 1⟩
def c8u2 : WUnit := ⟨2, .troop, some 1⟩
def c8t : WTerr := ⟨1, some 1, [1, 2], []⟩
def c8w : WW := ⟨[c8u1, c8u2], [c8t]⟩

/-- C8 counterexample: on a territory holding two troops, take_unit rejects
the amount -1 with ValueError, but remove_unit accepts -1 without any error
and actually removes a unit (Python evaluates `available[:-1]`), because
remove_unit has no negative-amount check at all. -/
theorem C8_counterexample :
    (take_unit c8w c8t .troop (-1) true).2.1 = some Err.valueError ∧
    (remove_unit c8w c8t .troop (-1) false).2 = none ∧
    (remove_unit c8w c8t .troop (-1) false).1 ≠ c8w := by
  decide

/-- C8 amended: take_unit rejects a negative amount unconditionally and
without mutating; when shortfall is not allowed, both operations fail with
InsufficientUnitsException, without mutating, whenever the requested amount
exceeds the available pool; but remove_unit never rejects a negative amount. -/
theorem C8_amended (w : WW) (t : WTerr) (v : Variant) (amount : Int) (allow : Bool) :
    (amount < 0 →
      take_unit w t v amount allow = (w, some Err.valueError, none)) ∧
    (((all w t v).length : Int) < amount → allow = false →
      take_unit w t v amount allow = (w, some Err.insufficientUnits, none) ∧
      remove_unit w t v amount allow = (w, some Err.insufficientUnits)) ∧
    (amount < 0 → (remove_unit w t v amount allow).2 = none) := by
  refine ⟨?_, ?_, ?_⟩
  · intro h
    unfold take_unit
    rw [if_pos h]
  · intro h hal
    subst hal
    constructor
    · unfold take_unit
      rw [if_neg (by omega), if_neg (by omega)]
      dsimp only
      rw [if_pos h]
      rfl
    · unfold remove_unit
      dsimp only
      rw [if_pos h]
      rfl
  · intro h
    unfold remove_unit
    dsimp only
    rw [if_neg (by omega)]

/-- Witness: the amended C8 theorem on the two-troop territory, with amount
-1 for the negative cases and amount 5 for the shortfall case. -/
theorem C8_amended_witness :
    ((-1 : Int) < 0 ∧
      take_unit c8w c8t .troop (-1) true = (c8w, some Err.valueError, none)) ∧
    (((all c8w c8t .troop).length : Int) < 5 ∧
      take_unit c8w c8t .troop 5 false = (c8w, some Err.insufficientUnits, none) ∧
      remove_unit c8w c8t .troop 5 false = (c8w, some Err.insufficientUnits)) ∧
    (remove_unit c8w c8t .troop (-1) false).2 = none :=
  ⟨⟨by decide, (C8_amended c8w c8t .troop (-1) true).1 (by decide)⟩,
   ⟨by decide, (C8_amended c8w c8t .troop 5 false).2.1 (by decide) rfl⟩,
   (C8_amended c8w c8t .troop (-1) false).2.2 (by decide)⟩

/-! ### C10: take_unit is pure -/

/-- C10: take_unit never mutates: for every territory, variant, amount and
shortfall flag, the world after the call — every territory's unit list,
constructs and owner, and every unit's territory back-reference — is exactly
the world before, whether the call raises or returns. -/
theorem C10_take_unit_pure (w : WW) (t : WTerr) (v : Variant) (amount : Int)
    (allow : Bool) : (take_unit w t v amount allow).1 = w := by
  unfold take_unit
  dsimp only
  split_ifs <;> rfl

end WorldModel

namespace WorldModel

theorem findUnit_some (w : WW) (uid : Nat) (u : WUnit)
    (h : findUnit w uid = some u) : u ∈ w.units ∧ u.uid = uid := by
  unfold findUnit at h
  refine ⟨List.mem_of_find?_eq_some h, ?_⟩
  have := List.find?_some h
  simpa using this

theorem uid_inj (w : WW) (hnd : (w.units.map WUnit.uid).Nodup) (u u' : WUnit)
    (hu : u ∈ w.units) (hu' : u' ∈ w.units) (he : u.uid = u'.uid) : u = u' :=
  List.inj_on_of_nodup_map hnd hu hu' he

/-- The heart of the C9 move proof: appending the moved unit to the target and
pointing its back-reference there restores the invariant, provided the unit
has already disappeared from every territory list (hypothesis hmem gives each
post-removal list as a restriction of the original one). -/
theorem Inv_move_core (w : WW) (uid dest : Nat) (u0 : WUnit)
    (hndU : (w.units.map WUnit.uid).Nodup)
    (hu0mem : u0 ∈ w.units) (hu0uid : u0.uid = uid)
    (hInv : Inv w)
    (w1 : WW) (hw1u : w1.units = w.units)
    (hmem : ∀ t1 ∈ w1.terrs, ∃ t ∈ w.terrs, t1.tid = t.tid ∧
        ∀ x, x ∈ t1.units ↔ x ∈ t.units ∧ (x = uid → u0.territory ≠ some t.tid)) :
    Inv (appendToTerr (setUnitTerr w1 uid (some dest)) dest uid) := by
  intro u' hu' t' ht'
  have hu'' : u' ∈ w.units.map fun u =>
      if u.uid == uid then { u with territory := some dest } else u := by
    have : (appendToTerr (setUnitTerr w1 uid (some dest)) dest uid).units
        = w1.units.map fun u =>
          if u.uid == uid then { u with territory := some dest } else u := rfl
    rw [this, hw1u] at hu'
    exact hu'
  obtain ⟨u, hum, rfl⟩ := List.mem_map.mp hu''
  have ht'' : t' ∈ w1.terrs.map fun t1 =>
      if t1.tid == dest then { t1 with units := t1.units ++ [uid] } else t1 := by
    have : (appendToTerr (setUnitTerr w1 uid (some dest)) dest uid).terrs
        = w1.terrs.map fun t1 =>
          if t1.tid == dest then { t1 with units := t1.units ++ [uid] } else t1 := rfl
    rw [this] at ht'
    exact ht'
  obtain ⟨t1, ht1, rfl⟩ := List.mem_map.mp ht''
  obtain ⟨t, htm, htid, hchar⟩ := hmem t1 ht1
  have htid2 : (if t1.tid == dest then { t1 with units := t1.units ++ [uid] } else t1).tid
      = t.tid := by
    split <;> simpa using htid
  rw [htid2]
  by_cases hcu : u.uid = uid
  · have hu0 : u = u0 := uid_inj w hndU u u0 hum hu0mem (by rw [hcu, hu0uid])
    rw [if_pos (beq_iff_eq.mpr hcu)]
    by_cases hd : t1.tid = dest
    · rw [if_pos (beq_iff_eq.mpr hd)]
      simp only [List.mem_append, List.mem_singleton]
      constructor
      · intro _
        exact Or.inr hcu
      · intro _
        rw [← htid, hd]
    · rw [if_neg (by simpa using hd)]
      constructor
      · intro hc
        have : t.tid = dest := by simpa using hc.symm
        rw [← htid] at this
        exact absurd this hd
      · intro hc
        have := (hchar u.uid).mp hc
        have hback : u0.territory = some t.tid :=
          (hInv u0 hu0mem t htm).mpr (by rw [← hu0]; exact this.1)
        exact absurd hback (this.2 hcu)
  · rw [if_neg (by simpa using hcu)]
    have hmemiff : u.uid ∈ (if t1.tid == dest then
        { t1 with units := t1.units ++ [uid] } else t1).units ↔ u.uid ∈ t.units := by
      have h1 : u.uid ∈ t1.units ↔ u.uid ∈ t.units := by
        rw [hchar u.uid]
        constructor
        · exact fun h => h.1
        · exact fun h => ⟨h, fun hc => absurd hc hcu⟩
      split
      · simp only [List.mem_append, List.mem_singleton]
        constructor
        · rintro (h | h)
          · exact h1.mp h
          · exact absurd h hcu
        · exact fun h => Or.inl (h1.mpr h)
      · exact h1
    rw [hmemiff]
    exact hInv u hum t htm

theorem unitMove_eq_some (w : WW) (uid dest : Nat) (u : WUnit) (tid : Nat)
    (hu : findUnit w uid = some u) (ht : u.territory = some tid) :
    unitMove w uid dest =
      appendToTerr (setUnitTerr (removeFromTerr w tid uid) uid (some dest)) dest uid := by
  unfold unitMove
  dsimp only
  rw [hu]
  show appendToTerr (setUnitTerr (match u.territory with
    | some tid => removeFromTerr w tid uid
    | none => w) uid (some dest)) dest uid = _
  rw [ht]

theorem unitMove_eq_none (w : WW) (uid dest : Nat) (u : WUnit)
    (hu : findUnit w uid = some u) (ht : u.territory = none) :
    unitMove w uid dest = appendToTerr (setUnitTerr w uid (some dest)) dest uid := by
  unfold unitMove
  dsimp only
  rw [hu]
  show appendToTerr (setUnitTerr (match u.territory with
    | some tid => removeFromTerr w tid uid
    | none => w) uid (some dest)) dest uid = _
  rw [ht]

theorem unitRemove_eq_some (w : WW) (uid : Nat) (u : WUnit) (tid : Nat)
    (hu : findUnit w uid = some u) (ht : u.territory = some tid) :
    unitRemove w uid = removeFromTerr w tid uid := by
  unfold unitRemove
  rw [hu]
  show (match u.territory with
    | some tid => removeFromTerr w tid uid
    | none => w) = _
  rw [ht]

theorem unitRemove_eq_none_terr (w : WW) (uid : Nat) (u : WUnit)
    (hu : findUnit w uid = some u) (ht : u.territory = none) :
    unitRemove w uid = w := by
  unfold unitRemove
  rw [hu]
  show (match u.territory with
    | some tid => removeFromTerr w tid uid
    | none => w) = _
  rw [ht]

theorem unitRemove_eq_nofind (w : WW) (uid : Nat)
    (hu : findUnit w uid = none) : unitRemove w uid = w := by
  unfold unitRemove
  rw [hu]

/-- `Unit.move` preserves the back-reference invariant on a well-formed
world. -/
theorem Inv_unitMove (w : WW) (uid dest : Nat) (u0 : WUnit)
    (hWF : WF w) (hInv : Inv w) (hu : findUnit w uid = some u0) :
    Inv (unitMove w uid dest) := by
  obtain ⟨hndU, hndT, hndL⟩ := hWF
  obtain ⟨hu0mem, hu0uid⟩ := findUnit_some w uid u0 hu
  cases ht0 : u0.territory with
  | none =>
    rw [unitMove_eq_none w uid dest u0 hu ht0]
    refine Inv_move_core w uid dest u0 hndU hu0mem hu0uid hInv w rfl ?_
    intro t1 ht1
    refine ⟨t1, ht1, rfl, fun x => ?_⟩
    constructor
    · intro h
      exact ⟨h, fun _ => by rw [ht0]; exact fun hc => Option.noConfusion hc⟩
    · exact fun h => h.1
  | some tid0 =>
    rw [unitMove_eq_some w uid dest u0 tid0 hu ht0]
    refine Inv_move_core w uid dest u0 hndU hu0mem hu0uid hInv
      (removeFromTerr w tid0 uid) rfl ?_
    intro t1 ht1
    have ht1' : t1 ∈ w.terrs.map fun t =>
        if t.tid == tid0 then { t with units := t.units.erase uid } else t := ht1
    obtain ⟨t, htm, rfl⟩ := List.mem_map.mp ht1'
    by_cases hc : t.tid = tid0
    · rw [if_pos (beq_iff_eq.mpr hc)]
      refine ⟨t, htm, rfl, fun x => ?_⟩
      rw [(hndL t htm).mem_erase_iff]
      constructor
      · rintro ⟨hne, hmem⟩
        exact ⟨hmem, fun hx => absurd hx hne⟩
      · rintro ⟨hmem, himp⟩
        refine ⟨fun hx => ?_, hmem⟩
        exact himp hx (by rw [ht0, hc])
    · rw [if_neg (by simpa using hc)]
      refine ⟨t, htm, rfl, fun x => ?_⟩
      constructor
      · intro h
        refine ⟨h, fun _ => ?_⟩
        rw [ht0]
        intro hcon
        exact hc (by simpa using hcon.symm)
      · exact fun h => h.1

theorem RevInv_removeFromTerr (w : WW) (tid uid : Nat) (h : RevInv w) :
    RevInv (removeFromTerr w tid uid) := by
  intro u hu t1 ht1 hx
  have hu' : u ∈ w.units := hu
  have ht1' : t1 ∈ w.terrs.map fun t =>
      if t.tid == tid then { t with units := t.units.erase uid } else t := ht1
  obtain ⟨t, htm, rfl⟩ := List.mem_map.mp ht1'
  by_cases hc : t.tid = tid
  · rw [if_pos (beq_iff_eq.mpr hc)] at hx ⊢
    exact h u hu' t htm (List.mem_of_mem_erase hx)
  · rw [if_neg (by simpa using hc)] at hx ⊢
    exact h u hu' t htm hx

theorem RevInv_foldl (tid : Nat) (l : List Nat) (w : WW) (h : RevInv w) :
    RevInv (l.foldl (fun acc uid => removeFromTerr acc tid uid) w) := by
  induction l generalizing w with
  | nil => exact h
  | cons a as ih => exact ih _ (RevInv_removeFromTerr w tid a h)

theorem RevInv_unitRemove (w : WW) (uid : Nat) (h : RevInv w) :
    RevInv (unitRemove w uid) := by
  cases hfu : findUnit w uid with
  | none =>
    rw [unitRemove_eq_nofind w uid hfu]
    exact h
  | some u =>
    cases ht : u.territory with
    | none =>
      rw [unitRemove_eq_none_terr w uid u hfu ht]
      exact h
    | some tid =>
      rw [unitRemove_eq_some w uid u tid hfu ht]
      exact RevInv_removeFromTerr w tid uid h

theorem RevInv_remove_unit (w : WW) (t : WTerr) (v : Variant) (amount : Int)
    (allow : Bool) (h : RevInv w) : RevInv (remove_unit w t v amount allow).1 := by
  unfold remove_unit
  dsimp only
  split_ifs
  · exact h
  · exact RevInv_foldl t.tid _ w h
  · exact RevInv_foldl t.tid _ w h

theorem RevInv_of_Inv (w : WW) (h : Inv w) : RevInv w :=
  fun u hu t ht hx => (h u hu t ht).mpr hx

def c9w : WW := ⟨[⟨1, .troop, some 1⟩], [⟨1, none, [1], []⟩]⟩

/-- C9 counterexample: in a world satisfying the back-reference invariant —
one troop standing in territory 1 — Unit.remove erases the unit from the
territory's list but leaves the unit's own `territory` field pointing at
territory 1, so the invariant no longer holds afterwards. -/
theorem C9_counterexample : Inv c9w ∧ ¬ Inv (unitRemove c9w 1) := by
  decide

/-- C9 amended: on a well-formed world satisfying the back-reference
invariant, Unit.move preserves the full invariant; Unit.remove and
Territory.remove_unit preserve only its forward half — a unit still listed by
a territory has a correct back-reference — while the removed units keep a
stale back-reference to the territory they were removed from. -/
theorem C9_amended (w : WW) (uid dest : Nat) (u0 : WUnit)
    (hWF : WF w) (hInv : Inv w) (hu : findUnit w uid = some u0) :
    Inv (unitMove w uid dest) ∧ RevInv (unitRemove w uid) ∧
    ∀ t v amount allow, RevInv (remove_unit w t v amount allow).1 :=
  ⟨Inv_unitMove w uid dest u0 hWF hInv hu,
   RevInv_unitRemove w uid (RevInv_of_Inv w hInv),
   fun t v amount allow =>
     RevInv_remove_unit w t v amount allow (RevInv_of_Inv w hInv)⟩

def c9wit : WW :=
  ⟨[⟨1, .troop, some 1⟩, ⟨2, .cavalry, none⟩],
   [⟨1, none, [1], []⟩, ⟨2, some 5, [], []⟩]⟩

/-- Witness: the amended C9 theorem on a two-territory world, moving unit 1
to territory 2. -/
theorem C9_amended_witness :
    (WF c9wit ∧ Inv c9wit ∧ findUnit c9wit 1 = some ⟨1, .troop, some 1⟩) ∧
    (Inv (unitMove c9wit 1 2) ∧ RevInv (unitRemove c9wit 1) ∧
      ∀ t v amount allow, RevInv (remove_unit c9wit t v amount allow).1) :=
  ⟨⟨by decide, by decide, by decide⟩,
   C9_amended c9wit 1 2 ⟨1, .troop, some 1⟩ (by decide) (by decide) (by decide)⟩

end WorldModel

end GD
